import Mathlib

/-!
# Verification of the parallel Mandelbrot renderer (`src/mandelbrot.c`)

The program is embedded as an interleaving state machine.  Every thread of the
C program (one `column_thread` per image column, one `engine_thread` per
engine, the `writer_thread_function` thread and the tail of `main`) is a
function that performs the next statement of that thread on the shared state,
or is not enabled (`none`) when the statement blocks.

* Shared C globals are fields of `State` with the names of the source.
* Memory is sequentially consistent and a step is one statement, or a few
  consecutive statements that only touch thread-local data or data that the
  lock held at that point protects.
* A `pthread_mutex_t` is the identity of its owner, if any.
* `pthread_cond_wait` releases the mutex and re-acquires it at some later time.
  POSIX allows spurious wake-ups, so `pthread_cond_signal` changes nothing in
  the model; every safety property proved here holds for all wake-up orders.
* The semaphore `row_write_sem` is its counter, with the thread that last
  passed `sem_wait` without `sem_post` recorded beside it.
* `pthread_barrier_t` is a counter of blocked parties and a generation number.
* `double` arithmetic is a parameter (`DoubleOps`): nothing proved depends on
  rounding.
* `int` values that the program keeps non-negative are natural numbers.

The file has three parts: the embedding of the program, the invariants of the
synchronisation protocol with their proofs, and the properties of the
specification (`C1` to `C10`) with their instances at two concrete runs.
-/

namespace Mandelbrot

/-! ## Floating point arithmetic (abstract) -/

/-- The operations on `double` that the program uses. -/
structure DoubleOps (F : Type) where
  add : F → F → F
  sub : F → F → F
  mul : F → F → F
  div : F → F → F
  /-- The comparison `a <= b`. -/
  le : F → F → Bool
  /-- Conversion of an `int` to `double`. -/
  ofInt : Int → F

/-! ## `calculate_mandelbrot` (lines 95-111) -/

/-- The constant `MAX_ITERATIONS` of `calculate_mandelbrot`. -/
def MAX_ITERATIONS : Nat := 255

/-- The local variables of `calculate_mandelbrot`. -/
structure MandelLocals (F : Type) where
  real : F
  imag : F
  real_squared : F
  imag_squared : F
  iterations : Nat

/-- The loop condition
`real_squared + imag_squared <= 4.0 && iterations < MAX_ITERATIONS`. -/
def mandel_cond {F : Type} (ops : DoubleOps F) (st : MandelLocals F) : Bool :=
  ops.le (ops.add st.real_squared st.imag_squared) (ops.ofInt 4) &&
    decide (st.iterations < MAX_ITERATIONS)

/-- One execution of the loop body (lines 103-108). -/
def mandel_body {F : Type} (ops : DoubleOps F) (x y : F) (st : MandelLocals F) :
    MandelLocals F :=
  let next_imag := ops.add (ops.mul (ops.mul (ops.ofInt 2) st.real) st.imag) y
  let real := ops.add (ops.sub st.real_squared st.imag_squared) x
  let imag := next_imag
  { real := real
    imag := imag
    real_squared := ops.mul real real
    imag_squared := ops.mul imag imag
    iterations := st.iterations + 1 }

/-- The `while` loop; every test of the condition uses one unit of fuel and
the loop gives no result when the fuel runs out. -/
def mandel_loop {F : Type} (ops : DoubleOps F) (x y : F) :
    Nat → MandelLocals F → Option (MandelLocals F)
  | 0, _ => none
  | fuel + 1, st =>
    if mandel_cond ops st then mandel_loop ops x y fuel (mandel_body ops x y st)
    else some st

/-- The locals at loop entry (lines 97-101). -/
def mandel_entry {F : Type} (ops : DoubleOps F) (x y : F) : MandelLocals F :=
  { real := x
    imag := y
    real_squared := ops.mul x x
    imag_squared := ops.mul y y
    iterations := 0 }

/-- The function `calculate_mandelbrot`: `255 - iterations` after the loop.
The loop is run with `MAX_ITERATIONS + 1` units of fuel. -/
def calculate_mandelbrot {F : Type} (ops : DoubleOps F) (x y : F) : Option Int :=
  (mandel_loop ops x y (MAX_ITERATIONS + 1) (mandel_entry ops x y)).map
    (fun st => 255 - (st.iterations : Int))

/-! ### The escape-time count as the specification words it -/

/-- One step `z -> z^2 + c` on the pair (real part, imaginary part),
with `c = x + iy`. -/
def orbit_step {F : Type} (ops : DoubleOps F) (x y : F) (z : F × F) : F × F :=
  (ops.add (ops.sub (ops.mul z.1 z.1) (ops.mul z.2 z.2)) x,
   ops.add (ops.mul (ops.mul (ops.ofInt 2) z.1) z.2) y)

/-- The `n`-th point of the orbit that starts at `z = c`. -/
def orbit {F : Type} (ops : DoubleOps F) (x y : F) : Nat → F × F
  | 0 => (x, y)
  | n + 1 => orbit_step ops x y (orbit ops x y n)

/-- The test `|z|^2 <= 4.0`. -/
def within_radius {F : Type} (ops : DoubleOps F) (z : F × F) : Bool :=
  ops.le (ops.add (ops.mul z.1 z.1) (ops.mul z.2 z.2)) (ops.ofInt 4)

/-- The number of steps performed while `|z|^2 <= 4.0` and fewer than 255
steps have been made: the length of the longest initial run of orbit points
`0, 1, ..., 254` that are all within the radius. -/
def escape_iterations {F : Type} (ops : DoubleOps F) (x y : F) : Nat :=
  ((List.range 255).takeWhile (fun n => within_radius ops (orbit ops x y n))).length

/-! ## Pixel encoding and the sink (lines 87-92, 189-194) -/

/-- Conversion of an `int` to `uint8_t`. -/
def to_uint8 (v : Int) : Nat := (v % 256).toNat

/-- The three stores of one iteration of the loop at lines 189-193. -/
def rgb_store (current_row_data : Nat → Int) (rgb : List Nat) (col : Nat) : List Nat :=
  ((rgb.set (col * 3) (to_uint8 (current_row_data col))).set
      (col * 3 + 1) (to_uint8 (current_row_data col))).set
      (col * 3 + 2) (to_uint8 (current_row_data col))

/-- The loop `for (col = 0; col < img_dim; col++)` at lines 189-193. -/
def fill_rgb (img_dim : Nat) (current_row_data : Nat → Int) (rgb : List Nat) : List Nat :=
  (List.range img_dim).foldl (rgb_store current_row_data) rgb

/-- One call of the sink: the row index and the bytes handed to `fwrite`. -/
structure SinkWrite where
  row_index : Nat
  bytes : List Nat
  deriving DecidableEq, Repr

/-- The function `write_row_to_bmp`: `fwrite(row_data, 3, width, file)` writes
the first `3 * width` bytes of `row_data`.  The file is the sequence of the
calls made; the seek position inside the BMP file is not modelled. -/
def write_row_to_bmp (file : List SinkWrite) (row_data : List Nat) (width : Nat)
    (row_index : Nat) : List SinkWrite :=
  file ++ [{ row_index := row_index, bytes := row_data.take (3 * width) }]

/-! ## Shared state -/

/-- The run parameters, the globals `img_dim`, `engines`, `UL_X`, `UL_Y` and
`mandel_dim` that `main` sets from the command line. -/
structure Params (F : Type) where
  img_dim : Nat
  engines : Nat
  UL_X : F
  UL_Y : F
  mandel_dim : F

/-- The struct `EngineDataShare`. -/
structure EngineDataShare (F : Type) where
  x : F
  y : F
  row : Nat
  col : Nat
  is_valid : Nat
  deriving DecidableEq

/-- Thread identities. -/
inductive Tid where
  | col (column : Nat)
  | eng (engine_id : Nat)
  | writer
  | main
  deriving DecidableEq, Repr

/-- The state of `row_barrier`: the party count given to
`pthread_barrier_init`, the number of parties blocked in the current round and
the number of completed rounds. -/
structure Barrier where
  parties : Nat
  waiting : Nat
  generation : Nat
  deriving DecidableEq, Repr

/-- Whether the next arrival is the last one of the round. -/
def Barrier.last (b : Barrier) : Bool := decide (b.waiting + 1 = b.parties)

/-- The barrier after one more arrival: the last arrival of a round opens the
next round, any other arrival is counted as blocked. -/
def Barrier.arrive (b : Barrier) : Barrier :=
  if b.last then { b with waiting := 0, generation := b.generation + 1 }
  else { b with waiting := b.waiting + 1 }

/-- Program points of `column_thread`, with the locals `row` and `engine_id`.
* `head`: the loop test of line 119 and the arrival at the barrier, line 122;
* `barrier`: blocked in `pthread_barrier_wait` in the round `gen`;
* `pick`: lines 125-134, the choice of `engine_id`;
* `lock`: line 136;
* `while_`: the test of line 138, mutex held;
* `wait`: inside `pthread_cond_wait`, line 139, mutex released;
* `deposit`: lines 141-143, mutex held;
* `unlock`: line 144;
* `done`: the thread has returned. -/
inductive ColPc where
  | head (row : Nat)
  | barrier (row gen : Nat)
  | pick (row : Nat)
  | lock (row engine_id : Nat)
  | while_ (row engine_id : Nat)
  | wait (row engine_id : Nat)
  | deposit (row engine_id : Nat)
  | unlock (row engine_id : Nat)
  | done
  deriving DecidableEq, Repr

/-- Program points of `engine_thread`, with the locals `item` and `value`.
* `head`: first operand of the loop test, line 155 (`!all_work_submitted`);
* `head2`: second operand of the loop test (`is_valid`);
* `lock`: line 157;
* `while_`: the test of line 159, mutex held;
* `wait`: inside `pthread_cond_wait`, line 160, mutex released;
* `if_`: lines 163-170, mutex held;
* `take`: lines 172-174, mutex held;
* `unlock`: line 175 and the call of line 177;
* `semwait`: line 180;
* `write`: lines 181-186, semaphore held;
* `flush`: lines 187-195, semaphore held;
* `wlock`: line 198, semaphore held;
* `wsignal`: lines 199-200, semaphore and `writer_mutex` held;
* `post`: line 202;
* `done`: the thread has left its loop. -/
inductive EngPc (F : Type) where
  | head
  | head2
  | lock
  | while_
  | wait
  | if_
  | take
  | unlock (item : EngineDataShare F)
  | semwait (item : EngineDataShare F) (value : Int)
  | write (item : EngineDataShare F) (value : Int)
  | flush (item : EngineDataShare F)
  | wlock
  | wsignal
  | post
  | done
  deriving DecidableEq

/-- Program points of `writer_thread_function`, with the local `row`.
* `head`: loop test, line 211;
* `lock`: line 213;
* `while_`: the test of line 214, `writer_mutex` held;
* `wait`: inside `pthread_cond_wait`, line 215, `writer_mutex` released;
* `unlock`: line 217;
* `if_`: lines 219-221, the arrival at the barrier;
* `barrier`: blocked in `pthread_barrier_wait` in the round `gen`;
* `done`: the thread has returned. -/
inductive WriterPc where
  | head (row : Nat)
  | lock (row : Nat)
  | while_ (row : Nat)
  | wait (row : Nat)
  | unlock (row : Nat)
  | if_ (row : Nat)
  | barrier (row gen : Nat)
  | done
  deriving DecidableEq, Repr

/-- Program points of `main` from line 301 on, with the loop index `i`.
* `join`: lines 301-303;
* `set`: line 304;
* `siglock`: loop test of line 306 and line 307;
* `sigunlock`: lines 308-309;
* `ejoin`: lines 312-314;
* `wjoin`: line 316;
* `done`: the run is complete. -/
inductive MainPc where
  | join (i : Nat)
  | set
  | siglock (i : Nat)
  | sigunlock (i : Nat)
  | ejoin (i : Nat)
  | wjoin
  | done
  deriving DecidableEq, Repr

/-- The shared globals of the program and the program point of every thread.
The last three fields are instrumentation: `stored row col` records that the
value of point `(row, col)` was stored by line 181, and the two arrival
counters count the calls of `pthread_barrier_wait` per thread. -/
structure State (F : Type) where
  col_pc : Nat → ColPc
  eng_pc : Nat → EngPc F
  writer_pc : WriterPc
  main_pc : MainPc
  DataShare_struct_array : Nat → EngineDataShare F
  engine_mutexes : Nat → Option Tid
  row_write_sem : Nat
  sem_holder : Option Tid
  row_barrier : Barrier
  writer_mutex : Option Tid
  current_row_data : Nat → Int
  current_row_rgb : List Nat
  all_work_submitted : Nat
  pixels_per_row : Nat → Nat
  row_completed : Nat → Nat
  row_written : Nat → Nat
  total_points_processed : Nat
  output_file : List SinkWrite
  stored : Nat → Nat → Bool
  col_arrivals : Nat → Nat
  writer_arrivals : Nat

/-- The state after the set-up of `main` (lines 228-298): slots invalid,
semaphore 1, barrier of `img_dim + 1` parties, zeroed row arrays, and every
thread at its entry.  Threads are created one after another by `main`; a
thread that is not created yet is one that has not been scheduled yet. -/
def initial_state {F : Type} (p : Params F) : State F :=
  { col_pc := fun _ => .head 0
    eng_pc := fun _ => .head
    writer_pc := .head 0
    main_pc := .join 0
    DataShare_struct_array := fun _ =>
      { x := p.UL_X, y := p.UL_Y, row := 0, col := 0, is_valid := 0 }
    engine_mutexes := fun _ => none
    row_write_sem := 1
    sem_holder := none
    row_barrier := { parties := p.img_dim + 1, waiting := 0, generation := 0 }
    writer_mutex := none
    current_row_data := fun _ => 0
    current_row_rgb := List.replicate (p.img_dim * 3) 0
    all_work_submitted := 0
    pixels_per_row := fun _ => 0
    row_completed := fun _ => 0
    row_written := fun _ => 0
    total_points_processed := 0
    output_file := []
    stored := fun _ _ => false
    col_arrivals := fun _ => 0
    writer_arrivals := 0 }

/-! ## The threads -/

/-- The work item built at lines 118 and 125-134. -/
def make_item {F : Type} (p : Params F) (ops : DoubleOps F) (column row : Nat) :
    EngineDataShare F :=
  { x := ops.add p.UL_X (ops.div (ops.mul (ops.ofInt column) p.mandel_dim) (ops.ofInt p.img_dim))
    y := ops.add p.UL_Y (ops.div (ops.mul (ops.ofInt row) p.mandel_dim) (ops.ofInt p.img_dim))
    row := row
    col := column
    is_valid := 1 }

/-- One step of `column_thread` for the column `column`; `rnd` is the value
that `rand()` returns at line 127. -/
def column_thread {F : Type} (p : Params F) (ops : DoubleOps F) (s : State F)
    (column rnd : Nat) : Option (State F) :=
  match s.col_pc column with
  | .head row =>
    if row < p.img_dim then
      if row > 0 then
        some { s with
          row_barrier := s.row_barrier.arrive
          col_arrivals := Function.update s.col_arrivals column (s.col_arrivals column + 1)
          col_pc := Function.update s.col_pc column
            (if s.row_barrier.last then .pick row
             else .barrier row s.row_barrier.generation) }
      else some { s with col_pc := Function.update s.col_pc column (.pick row) }
    else some { s with col_pc := Function.update s.col_pc column .done }
  | .barrier row gen =>
    if s.row_barrier.generation ≠ gen then
      some { s with col_pc := Function.update s.col_pc column (.pick row) }
    else none
  | .pick row =>
    if p.engines = 0 then none
    else some { s with col_pc := Function.update s.col_pc column (.lock row (rnd % p.engines)) }
  | .lock row engine_id =>
    if s.engine_mutexes engine_id = none then
      some { s with
        engine_mutexes := Function.update s.engine_mutexes engine_id (some (.col column))
        col_pc := Function.update s.col_pc column (.while_ row engine_id) }
    else none
  | .while_ row engine_id =>
    if (s.DataShare_struct_array engine_id).is_valid ≠ 0 then
      some { s with
        engine_mutexes := Function.update s.engine_mutexes engine_id none
        col_pc := Function.update s.col_pc column (.wait row engine_id) }
    else some { s with col_pc := Function.update s.col_pc column (.deposit row engine_id) }
  | .wait row engine_id =>
    if s.engine_mutexes engine_id = none then
      some { s with
        engine_mutexes := Function.update s.engine_mutexes engine_id (some (.col column))
        col_pc := Function.update s.col_pc column (.while_ row engine_id) }
    else none
  | .deposit row engine_id =>
    some { s with
      DataShare_struct_array :=
        Function.update s.DataShare_struct_array engine_id (make_item p ops column row)
      col_pc := Function.update s.col_pc column (.unlock row engine_id) }
  | .unlock row engine_id =>
    some { s with
      engine_mutexes := Function.update s.engine_mutexes engine_id none
      col_pc := Function.update s.col_pc column (.head (row + 1)) }
  | .done => none

/-- One step of `engine_thread` for the engine `engine_id`. -/
def engine_thread {F : Type} (p : Params F) (ops : DoubleOps F) (s : State F)
    (engine_id : Nat) : Option (State F) :=
  match s.eng_pc engine_id with
  | .head =>
    if s.all_work_submitted = 0 then
      some { s with eng_pc := Function.update s.eng_pc engine_id .lock }
    else some { s with eng_pc := Function.update s.eng_pc engine_id .head2 }
  | .head2 =>
    if (s.DataShare_struct_array engine_id).is_valid ≠ 0 then
      some { s with eng_pc := Function.update s.eng_pc engine_id .lock }
    else some { s with eng_pc := Function.update s.eng_pc engine_id .done }
  | .lock =>
    if s.engine_mutexes engine_id = none then
      some { s with
        engine_mutexes := Function.update s.engine_mutexes engine_id (some (.eng engine_id))
        eng_pc := Function.update s.eng_pc engine_id .while_ }
    else none
  | .while_ =>
    if (s.DataShare_struct_array engine_id).is_valid = 0 ∧ s.all_work_submitted = 0 then
      some { s with
        engine_mutexes := Function.update s.engine_mutexes engine_id none
        eng_pc := Function.update s.eng_pc engine_id .wait }
    else some { s with eng_pc := Function.update s.eng_pc engine_id .if_ }
  | .wait =>
    if s.engine_mutexes engine_id = none then
      some { s with
        engine_mutexes := Function.update s.engine_mutexes engine_id (some (.eng engine_id))
        eng_pc := Function.update s.eng_pc engine_id .while_ }
    else none
  | .if_ =>
    if (s.DataShare_struct_array engine_id).is_valid = 0 then
      if s.all_work_submitted ≠ 0 then
        some { s with
          engine_mutexes := Function.update s.engine_mutexes engine_id none
          eng_pc := Function.update s.eng_pc engine_id .done }
      else
        some { s with
          engine_mutexes := Function.update s.engine_mutexes engine_id none
          eng_pc := Function.update s.eng_pc engine_id .head }
    else some { s with eng_pc := Function.update s.eng_pc engine_id .take }
  | .take =>
    some { s with
      DataShare_struct_array := Function.update s.DataShare_struct_array engine_id
        { s.DataShare_struct_array engine_id with is_valid := 0 }
      eng_pc := Function.update s.eng_pc engine_id
        (.unlock (s.DataShare_struct_array engine_id)) }
  | .unlock item =>
    match calculate_mandelbrot ops item.x item.y with
    | some value =>
      some { s with
        engine_mutexes := Function.update s.engine_mutexes engine_id none
        eng_pc := Function.update s.eng_pc engine_id (.semwait item value) }
    | none => none
  | .semwait item value =>
    if s.row_write_sem > 0 then
      some { s with
        row_write_sem := s.row_write_sem - 1
        sem_holder := some (.eng engine_id)
        eng_pc := Function.update s.eng_pc engine_id (.write item value) }
    else none
  | .write item value =>
    some { s with
      current_row_data := Function.update s.current_row_data item.col value
      total_points_processed := s.total_points_processed + 1
      pixels_per_row := Function.update s.pixels_per_row item.row (s.pixels_per_row item.row + 1)
      stored := Function.update s.stored item.row
        (Function.update (s.stored item.row) item.col true)
      eng_pc := Function.update s.eng_pc engine_id
        (if s.pixels_per_row item.row + 1 = p.img_dim then .flush item else .post) }
  | .flush item =>
    some { s with
      row_completed := Function.update s.row_completed item.row 1
      current_row_rgb := fill_rgb p.img_dim s.current_row_data s.current_row_rgb
      output_file := write_row_to_bmp s.output_file
        (fill_rgb p.img_dim s.current_row_data s.current_row_rgb) p.img_dim item.row
      row_written := Function.update s.row_written item.row 1
      eng_pc := Function.update s.eng_pc engine_id .wlock }
  | .wlock =>
    if s.writer_mutex = none then
      some { s with
        writer_mutex := some (.eng engine_id)
        eng_pc := Function.update s.eng_pc engine_id .wsignal }
    else none
  | .wsignal =>
    some { s with
      writer_mutex := none
      eng_pc := Function.update s.eng_pc engine_id .post }
  | .post =>
    some { s with
      row_write_sem := s.row_write_sem + 1
      sem_holder := none
      eng_pc := Function.update s.eng_pc engine_id .head }
  | .done => none

/-- One step of `writer_thread_function`. -/
def writer_thread_function {F : Type} (p : Params F) (s : State F) : Option (State F) :=
  match s.writer_pc with
  | .head row =>
    if row < p.img_dim then some { s with writer_pc := .lock row }
    else some { s with writer_pc := .done }
  | .lock row =>
    if s.writer_mutex = none then
      some { s with writer_mutex := some .writer, writer_pc := .while_ row }
    else none
  | .while_ row =>
    if s.row_written row = 0 then
      some { s with writer_mutex := none, writer_pc := .wait row }
    else some { s with writer_pc := .unlock row }
  | .wait row =>
    if s.writer_mutex = none then
      some { s with writer_mutex := some .writer, writer_pc := .while_ row }
    else none
  | .unlock row => some { s with writer_mutex := none, writer_pc := .if_ row }
  | .if_ row =>
    if row < p.img_dim - 1 then
      some { s with
        row_barrier := s.row_barrier.arrive
        writer_arrivals := s.writer_arrivals + 1
        writer_pc :=
          if s.row_barrier.last then .head (row + 1)
          else .barrier row s.row_barrier.generation }
    else some { s with writer_pc := .head (row + 1) }
  | .barrier row gen =>
    if s.row_barrier.generation ≠ gen then some { s with writer_pc := .head (row + 1) }
    else none
  | .done => none

/-- One step of `main` from line 301 on. -/
def main {F : Type} (p : Params F) (s : State F) : Option (State F) :=
  match s.main_pc with
  | .join i =>
    if i < p.img_dim then
      if s.col_pc i = .done then some { s with main_pc := .join (i + 1) } else none
    else some { s with main_pc := .set }
  | .set => some { s with all_work_submitted := 1, main_pc := .siglock 0 }
  | .siglock i =>
    if i < p.engines then
      if s.engine_mutexes i = none then
        some { s with
          engine_mutexes := Function.update s.engine_mutexes i (some .main)
          main_pc := .sigunlock i }
      else none
    else some { s with main_pc := .ejoin 0 }
  | .sigunlock i =>
    some { s with
      engine_mutexes := Function.update s.engine_mutexes i none
      main_pc := .siglock (i + 1) }
  | .ejoin i =>
    if i < p.engines then
      match s.eng_pc i with
      | .done => some { s with main_pc := .ejoin (i + 1) }
      | _ => none
    else some { s with main_pc := .wjoin }
  | .wjoin =>
    if s.writer_pc = .done then some { s with main_pc := .done } else none
  | .done => none

/-! ## Interleavings -/

/-- A scheduling decision: which thread makes its next step.  A column step
carries the value returned by `rand()`, used only at line 127. -/
inductive Action where
  | col (column rnd : Nat)
  | eng (engine_id : Nat)
  | writer
  | main
  deriving DecidableEq, Repr

/-- One step of the program.  Only the `img_dim` column threads and the
`engines` engine threads that `main` creates exist. -/
def step {F : Type} (p : Params F) (ops : DoubleOps F) (s : State F) :
    Action → Option (State F)
  | .col column rnd => if column < p.img_dim then column_thread p ops s column rnd else none
  | .eng engine_id => if engine_id < p.engines then engine_thread p ops s engine_id else none
  | .writer => writer_thread_function p s
  | .main => main p s

/-- The state after a schedule, when every step of it is enabled. -/
def run {F : Type} (p : Params F) (ops : DoubleOps F) : State F → List Action → Option (State F)
  | s, [] => some s
  | s, a :: rest =>
    match step p ops s a with
    | some s' => run p ops s' rest
    | none => none

/-- The states that some interleaving of the threads reaches. -/
inductive Reachable {F : Type} (p : Params F) (ops : DoubleOps F) : State F → Prop where
  | start : Reachable p ops (initial_state p)
  | next {s s' : State F} (a : Action) :
      Reachable p ops s → step p ops s a = some s' → Reachable p ops s'

variable {F : Type}

/-! ## Auxiliary notions used by the invariants -/

/-- The number of indices below `n` at which `f` is true. -/
def count_upto (f : Nat → Bool) : Nat → Nat
  | 0 => 0
  | n + 1 => count_upto f n + (if f n then 1 else 0)

/-- The sum of `f` over the indices below `n`. -/
def sum_upto (f : Nat → Nat) : Nat → Nat
  | 0 => 0
  | n + 1 => sum_upto f n + f n

/-- The number of calls of the sink with row index `r`. -/
def flush_count (file : List SinkWrite) (r : Nat) : Nat :=
  (file.filter (fun w => decide (w.row_index = r))).length

/-- The mailbox mutex that a column thread holds at a program point. -/
def ColPc.holds : ColPc → Option Nat
  | .while_ _ e => some e
  | .deposit _ e => some e
  | .unlock _ e => some e
  | _ => none

/-- The engine index that a column thread has chosen, if any. -/
def ColPc.target : ColPc → Option Nat
  | .lock _ e => some e
  | .while_ _ e => some e
  | .wait _ e => some e
  | .deposit _ e => some e
  | .unlock _ e => some e
  | _ => none

/-- Whether a column thread is blocked in the barrier round `g`. -/
def ColPc.blocked_at (g : Nat) : ColPc → Bool
  | .barrier _ g' => g' == g
  | _ => false

/-- The number of `pthread_barrier_wait` calls a column thread has made when
it is at a program point. -/
def ColPc.arrivals (img_dim : Nat) : ColPc → Nat
  | .head row => row - 1
  | .barrier row _ => row
  | .pick row => row
  | .lock row _ => row
  | .while_ row _ => row
  | .wait row _ => row
  | .deposit row _ => row
  | .unlock row _ => row
  | .done => img_dim - 1

/-- The bounds on the local `row` of a column thread. -/
def ColPc.row_ok (img_dim : Nat) : ColPc → Prop
  | .head row => row ≤ img_dim
  | .barrier row _ => 0 < row ∧ row < img_dim
  | .pick row => row < img_dim
  | .lock row _ => row < img_dim
  | .while_ row _ => row < img_dim
  | .wait row _ => row < img_dim
  | .deposit row _ => row < img_dim
  | .unlock row _ => row < img_dim
  | .done => True

/-- The number of rows whose work item a column thread has deposited. -/
def ColPc.submitted (img_dim : Nat) : ColPc → Nat
  | .head row => row
  | .barrier row _ => row
  | .pick row => row
  | .lock row _ => row
  | .while_ row _ => row
  | .wait row _ => row
  | .deposit row _ => row
  | .unlock row _ => row + 1
  | .done => img_dim

/-- Whether an engine thread holds its mailbox mutex at a program point. -/
def EngPc.holds : EngPc F → Bool
  | .while_ => true
  | .if_ => true
  | .take => true
  | .unlock _ => true
  | _ => false

/-- Whether an engine thread is between `sem_wait` and `sem_post`. -/
def EngPc.in_cs : EngPc F → Bool
  | .write _ _ => true
  | .flush _ => true
  | .wlock => true
  | .wsignal => true
  | .post => true
  | _ => false

/-- Whether an engine thread holds `writer_mutex`. -/
def EngPc.signalling : EngPc F → Bool
  | .wsignal => true
  | _ => false

/-- The work item an engine thread has taken and not stored yet. -/
def EngPc.hand : EngPc F → Option (EngineDataShare F)
  | .unlock item => some item
  | .semwait item _ => some item
  | .write item _ => some item
  | _ => none

/-- The value an engine thread has computed and not stored yet. -/
def EngPc.computed : EngPc F → Option (EngineDataShare F × Int)
  | .semwait item value => some (item, value)
  | .write item value => some (item, value)
  | _ => none

/-- The row an engine thread is about to flush. -/
def EngPc.flushing : EngPc F → Option Nat
  | .flush item => some item.row
  | _ => none

/-- Whether the writer thread holds `writer_mutex`. -/
def WriterPc.holds : WriterPc → Bool
  | .while_ _ => true
  | .unlock _ => true
  | _ => false

/-- Whether the writer thread is blocked in the barrier round `g`. -/
def WriterPc.blocked_at (g : Nat) : WriterPc → Bool
  | .barrier _ g' => g' == g
  | _ => false

/-- The number of `pthread_barrier_wait` calls the writer thread has made. -/
def WriterPc.arrivals (img_dim : Nat) : WriterPc → Nat
  | .head row => min row (img_dim - 1)
  | .lock row => row
  | .while_ row => row
  | .wait row => row
  | .unlock row => row
  | .if_ row => row
  | .barrier row _ => row + 1
  | .done => img_dim - 1

/-- The bounds on the local `row` of the writer thread. -/
def WriterPc.row_ok (img_dim : Nat) : WriterPc → Prop
  | .head row => row ≤ img_dim
  | .lock row => row < img_dim
  | .while_ row => row < img_dim
  | .wait row => row < img_dim
  | .unlock row => row < img_dim
  | .if_ row => row < img_dim
  | .barrier row _ => row + 1 < img_dim
  | .done => True

/-- The number of rows the writer thread has seen written. -/
def WriterPc.observed (img_dim : Nat) : WriterPc → Nat
  | .head row => row
  | .lock row => row
  | .while_ row => row
  | .wait row => row
  | .unlock row => row + 1
  | .if_ row => row + 1
  | .barrier row _ => row + 1
  | .done => img_dim

/-- The value of `all_work_submitted` at a program point of `main`. -/
def MainPc.flag : MainPc → Nat
  | .join _ => 0
  | .set => 0
  | _ => 1

/-- The number of column threads `main` has joined. -/
def MainPc.cols_joined (img_dim : Nat) : MainPc → Nat
  | .join i => i
  | _ => img_dim

/-- The number of engine threads `main` has joined. -/
def MainPc.engs_joined (engines : Nat) : MainPc → Nat
  | .ejoin i => i
  | .wjoin => engines
  | .done => engines
  | _ => 0

/-- A work item is the one `column_thread` builds for a point of the image. -/
def item_ok (p : Params F) (ops : DoubleOps F) (it : EngineDataShare F) : Prop :=
  it.row < p.img_dim ∧ it.col < p.img_dim ∧ it = make_item p ops it.col it.row

/-- The intensity of the point `(row, column)`: the evaluator at the column's
`x` and the row's `y`. -/
def pixel_value (p : Params F) (ops : DoubleOps F) (column row : Nat) : Option Int :=
  calculate_mandelbrot ops (make_item p ops column row).x (make_item p ops column row).y

/-- The bytes of a row as the specification words them: three bytes per
column, each the intensity of the point, so that byte `i` is the intensity of
column `i / 3`. -/
def expected_row (p : Params F) (ops : DoubleOps F) (row : Nat) : List Nat :=
  (List.range (p.img_dim * 3)).map (fun i =>
    to_uint8 ((pixel_value p ops (i / 3) row).getD 0))

/-- The locals of `calculate_mandelbrot` after `k` executions of the loop
body, in terms of the orbit. -/
def mandel_at (ops : DoubleOps F) (x y : F) (k : Nat) : MandelLocals F :=
  { real := (orbit ops x y k).1
    imag := (orbit ops x y k).2
    real_squared := ops.mul (orbit ops x y k).1 (orbit ops x y k).1
    imag_squared := ops.mul (orbit ops x y k).2 (orbit ops x y k).2
    iterations := k }

/-- The thread is at the call `sem_wait(&row_write_sem)` (line 180). -/
def blocks_on_sem (s : State F) : Tid → Prop
  | .eng e => ∃ item value, s.eng_pc e = .semwait item value
  | _ => False

/-- The thread is at a call `pthread_barrier_wait(&row_barrier)` (lines 122
and 220), about to arrive or blocked in it. -/
def blocks_on_barrier (s : State F) : Tid → Prop
  | .col c => ∃ row, s.col_pc c = .head row ∨ ∃ g, s.col_pc c = .barrier row g
  | .writer => ∃ row, s.writer_pc = .if_ row ∨ ∃ g, s.writer_pc = .barrier row g
  | _ => False

/-- The thread is at the call `pthread_cond_wait(&row_barrier_c, ...)`
(line 215), about to wait or waiting. -/
def waits_completion (s : State F) : Tid → Prop
  | .writer => ∃ row, s.writer_pc = .while_ row ∨ s.writer_pc = .wait row
  | _ => False

/-- Exact integer arithmetic in the place of `double`, for concrete runs whose
coordinates and intermediate values are small integers. -/
def int_ops : DoubleOps Int :=
  { add := fun a b => a + b
    sub := fun a b => a - b
    mul := fun a b => a * b
    div := fun a b => a / b
    le := fun a b => decide (a ≤ b)
    ofInt := fun n => n }

/-- A 2 x 2 image computed by one engine over the viewport `(-2, -2, 4)`. -/
def demo_params : Params Int :=
  { img_dim := 2, engines := 1, UL_X := -2, UL_Y := -2, mandel_dim := 4 }

/-- A schedule of the 2 x 2 run that lets it run to completion: both columns
submit row 0, the engine stores both values and flushes the row, the writer
releases the barrier, and the same happens for row 1 before `main` joins. -/
def demo_schedule : List Action :=
  List.replicate 7 (.col 0 0) ++ List.replicate 4 (.col 1 0) ++ List.replicate 6 (.eng 0) ++
  List.replicate 5 (.col 1 0) ++ List.replicate 18 (.eng 0) ++ List.replicate 5 .writer ++
  List.replicate 7 (.col 0 0) ++ List.replicate 4 (.col 1 0) ++ List.replicate 5 (.eng 0) ++
  List.replicate 5 (.col 1 0) ++ List.replicate 18 (.eng 0) ++ List.replicate 6 .writer ++
  List.replicate 4 .main ++ List.replicate 3 (.eng 0) ++ List.replicate 6 .main

/-- The state of the 2 x 2 run after the first `k` steps of the schedule. -/
def demo_state (k : Nat) : State Int :=
  (run demo_params int_ops (initial_state demo_params) (demo_schedule.take k)).getD
    (initial_state demo_params)

/-- The same image computed by two engines. -/
def demo_params2 : Params Int :=
  { img_dim := 2, engines := 2, UL_X := -2, UL_Y := -2, mandel_dim := 4 }

/-- A schedule of the two-engine run that lets it run to completion; column 0
always picks engine 0 and column 1 always picks engine 1. -/
def demo_schedule2 : List Action :=
  List.replicate 7 (.col 0 0) ++ List.replicate 7 (.col 1 1) ++ List.replicate 12 (.eng 0) ++
  List.replicate 15 (.eng 1) ++ List.replicate 5 .writer ++
  List.replicate 7 (.col 0 0) ++ List.replicate 7 (.col 1 1) ++ List.replicate 11 (.eng 0) ++
  List.replicate 14 (.eng 1) ++ List.replicate 6 .writer ++
  List.replicate 4 .main ++ List.replicate 3 (.eng 0) ++ List.replicate 3 (.eng 1) ++
  List.replicate 9 .main

/-- The state of the two-engine run after the first `k` steps of its
schedule. -/
def demo_state2 (k : Nat) : State Int :=
  (run demo_params2 int_ops (initial_state demo_params2) (demo_schedule2.take k)).getD
    (initial_state demo_params2)

/-! ## Invariants -/

/-- Ownership of the mutexes and of the semaphore agrees with the program
points. -/
structure InvLock (s : State F) : Prop where
  col_owner : ∀ c i, (s.col_pc c).holds = some i ↔ s.engine_mutexes i = some (.col c)
  eng_owner : ∀ e i, (i = e ∧ (s.eng_pc e).holds = true) ↔ s.engine_mutexes i = some (.eng e)
  main_owner : ∀ i, s.main_pc = .sigunlock i ↔ s.engine_mutexes i = some .main
  writer_owner : ∀ i, s.engine_mutexes i ≠ some .writer
  sem_eng : ∀ e, (s.eng_pc e).in_cs = true ↔ s.sem_holder = some (.eng e)
  sem_other : ∀ t, s.sem_holder = some t → ∃ e, t = .eng e
  sem_value : s.row_write_sem = if s.sem_holder = none then 1 else 0
  wm_writer : s.writer_pc.holds = true ↔ s.writer_mutex = some .writer
  wm_eng : ∀ e, (s.eng_pc e).signalling = true ↔ s.writer_mutex = some (.eng e)
  wm_other : ∀ t, s.writer_mutex = some t → t = .writer ∨ ∃ e, t = .eng e

/-- The mailbox slots agree with the program points. -/
structure InvBox (p : Params F) (s : State F) : Prop where
  dep_empty : ∀ c row e, s.col_pc c = .deposit row e → (s.DataShare_struct_array e).is_valid = 0
  take_full : ∀ e, s.eng_pc e = .take → (s.DataShare_struct_array e).is_valid = 1
  valid01 : ∀ e, (s.DataShare_struct_array e).is_valid = 0 ∨
    (s.DataShare_struct_array e).is_valid = 1
  target_lt : ∀ c e, (s.col_pc c).target = some e → e < p.engines
  valid_lt : ∀ e, (s.DataShare_struct_array e).is_valid ≠ 0 → e < p.engines

/-- The barrier agrees with the program points of its parties. -/
structure InvBar (p : Params F) (s : State F) : Prop where
  parties : s.row_barrier.parties = p.img_dim + 1
  col_row : ∀ c, (s.col_pc c).row_ok p.img_dim
  col_arr : ∀ c, c < p.img_dim → s.col_arrivals c = (s.col_pc c).arrivals p.img_dim
  wr_row : s.writer_pc.row_ok p.img_dim
  wr_arr : s.writer_arrivals = s.writer_pc.arrivals p.img_dim
  col_round : ∀ c, c < p.img_dim → s.col_arrivals c =
    s.row_barrier.generation +
      (if (s.col_pc c).blocked_at s.row_barrier.generation then 1 else 0)
  wr_round : s.writer_arrivals =
    s.row_barrier.generation +
      (if s.writer_pc.blocked_at s.row_barrier.generation then 1 else 0)
  waiting : s.row_barrier.waiting =
    (if s.writer_pc.blocked_at s.row_barrier.generation then 1 else 0) +
      count_upto (fun c => (s.col_pc c).blocked_at s.row_barrier.generation) p.img_dim
  written_lt : ∀ r, r < s.writer_pc.observed p.img_dim → s.row_written r = 1
  written01 : ∀ r, s.row_written r = 0 ∨ s.row_written r = 1
  waiting_le : s.row_barrier.waiting ≤ p.img_dim

/-- Every work item is in exactly one place, and the row counters and the
sink agree with the set of stored points. -/
structure InvItems (p : Params F) (ops : DoubleOps F) (s : State F) : Prop where
  slot_ok : ∀ e, (s.DataShare_struct_array e).is_valid ≠ 0 →
    item_ok p ops (s.DataShare_struct_array e) ∧
    s.stored (s.DataShare_struct_array e).row (s.DataShare_struct_array e).col = false ∧
    (s.DataShare_struct_array e).row + 1 =
      (s.col_pc (s.DataShare_struct_array e).col).submitted p.img_dim
  hand_ok : ∀ e it, (s.eng_pc e).hand = some it →
    item_ok p ops it ∧ s.stored it.row it.col = false ∧
    it.row + 1 = (s.col_pc it.col).submitted p.img_dim
  value_ok : ∀ e it v, (s.eng_pc e).computed = some (it, v) →
    calculate_mandelbrot ops it.x it.y = some v
  slot_slot : ∀ e1 e2, (s.DataShare_struct_array e1).is_valid ≠ 0 →
    (s.DataShare_struct_array e2).is_valid ≠ 0 →
    (s.DataShare_struct_array e1).col = (s.DataShare_struct_array e2).col → e1 = e2
  hand_hand : ∀ e1 e2 it1 it2, (s.eng_pc e1).hand = some it1 → (s.eng_pc e2).hand = some it2 →
    it1.col = it2.col → e1 = e2
  slot_hand : ∀ e1 e2 it, (s.DataShare_struct_array e1).is_valid ≠ 0 →
    (s.eng_pc e2).hand = some it → (s.DataShare_struct_array e1).col ≠ it.col
  stored_lt : ∀ r c, s.stored r c = true →
    c < p.img_dim ∧ r < (s.col_pc c).submitted p.img_dim
  conserve : ∀ c r, c < p.img_dim → r < (s.col_pc c).submitted p.img_dim →
    s.stored r c = true ∨
    (∃ e, e < p.engines ∧ (s.DataShare_struct_array e).is_valid ≠ 0 ∧
      (s.DataShare_struct_array e).row = r ∧ (s.DataShare_struct_array e).col = c) ∨
    (∃ e it, e < p.engines ∧ (s.eng_pc e).hand = some it ∧ it.row = r ∧ it.col = c)
  ppr_count : ∀ r, s.pixels_per_row r = count_upto (s.stored r) p.img_dim
  flush_ok : ∀ e r, (s.eng_pc e).flushing = some r →
    r < p.img_dim ∧ s.pixels_per_row r = p.img_dim ∧ s.row_written r = 0
  written_full : ∀ r, s.row_written r ≠ 0 → r < p.img_dim ∧ s.pixels_per_row r = p.img_dim
  sink_count : ∀ r, flush_count s.output_file r = s.row_written r
  full_written : ∀ r, r < p.img_dim → s.pixels_per_row r = p.img_dim →
    s.row_written r = 1 ∨ ∃ e, e < p.engines ∧ (s.eng_pc e).flushing = some r

/-- The row buffer holds the intensities of the row that is open, and the
sink received the intensities of every flushed row. -/
structure InvData (p : Params F) (ops : DoubleOps F) (s : State F) : Prop where
  data_ok : ∀ c r, c < p.img_dim → s.stored r c = true → s.stored (r + 1) c = false →
    pixel_value p ops c r = some (s.current_row_data c)
  flush_data : ∀ e r, (s.eng_pc e).flushing = some r →
    ∀ c, c < p.img_dim → pixel_value p ops c r = some (s.current_row_data c)
  rgb_len : s.current_row_rgb.length = p.img_dim * 3
  sink_ok : ∀ w, w ∈ s.output_file →
    w.row_index < p.img_dim ∧ w.bytes = expected_row p ops w.row_index

/-- The shutdown protocol: the flag is set after every column thread has
returned, and an engine thread leaves its loop with an empty mailbox. -/
structure InvShutdown (p : Params F) (s : State F) : Prop where
  flag : s.all_work_submitted = s.main_pc.flag
  cols_joined : ∀ c, c < s.main_pc.cols_joined p.img_dim → c < p.img_dim → s.col_pc c = .done
  head2_flag : ∀ e, s.eng_pc e = .head2 → s.all_work_submitted = 1
  done_ok : ∀ e, s.eng_pc e = .done →
    s.all_work_submitted = 1 ∧ (s.DataShare_struct_array e).is_valid = 0
  engs_joined : ∀ e, e < s.main_pc.engs_joined p.engines → e < p.engines → s.eng_pc e = .done
  writer_joined : s.main_pc = .done → s.writer_pc = .done

/-! ## What a step of each thread leaves unchanged -/

theorem column_thread_frame {p : Params F} {ops : DoubleOps F} {s s' : State F} {c rnd : Nat}
    (hs : column_thread p ops s c rnd = some s') :
    ∃ pc m d b a, s' = { s with
      col_pc := Function.update s.col_pc c pc, engine_mutexes := m,
      DataShare_struct_array := d, row_barrier := b, col_arrivals := a } := by
  unfold column_thread at hs
  cases hpc : s.col_pc c <;> simp only [hpc] at hs <;> (try split_ifs at hs) <;>
    simp only [Option.some.injEq, reduceCtorEq] at hs <;> subst hs <;>
    exact ⟨_, _, _, _, _, rfl⟩

theorem engine_thread_frame {p : Params F} {ops : DoubleOps F} {s s' : State F} {e : Nat}
    (hs : engine_thread p ops s e = some s') :
    ∃ pc m d sem sh wm data rgb ppr rc rw tot file st, s' = { s with
      eng_pc := Function.update s.eng_pc e pc, engine_mutexes := m,
      DataShare_struct_array := d, row_write_sem := sem, sem_holder := sh,
      writer_mutex := wm, current_row_data := data, current_row_rgb := rgb,
      pixels_per_row := ppr, row_completed := rc, row_written := rw,
      total_points_processed := tot, output_file := file, stored := st } := by
  unfold engine_thread at hs
  cases hpc : s.eng_pc e <;> simp only [hpc] at hs <;> (try split_ifs at hs) <;>
    (try split at hs) <;>
    simp only [Option.some.injEq, reduceCtorEq] at hs <;> subst hs <;>
    exact ⟨_, _, _, _, _, _, _, _, _, _, _, _, _, _, rfl⟩

theorem writer_thread_frame {p : Params F} {s s' : State F}
    (hs : writer_thread_function p s = some s') :
    ∃ pc wm b a, s' = { s with
      writer_pc := pc, writer_mutex := wm, row_barrier := b, writer_arrivals := a } := by
  unfold writer_thread_function at hs
  cases hpc : s.writer_pc <;> simp only [hpc] at hs <;> (try split_ifs at hs) <;>
    simp only [Option.some.injEq, reduceCtorEq] at hs <;> subst hs <;>
    exact ⟨_, _, _, _, rfl⟩

theorem main_thread_frame {p : Params F} {s s' : State F}
    (hs : main p s = some s') :
    ∃ pc m f, s' = { s with main_pc := pc, engine_mutexes := m, all_work_submitted := f } := by
  unfold main at hs
  cases hpc : s.main_pc <;> simp only [hpc] at hs <;> (try split_ifs at hs) <;>
    (try split at hs) <;>
    simp only [Option.some.injEq, reduceCtorEq] at hs <;> subst hs <;>
    exact ⟨_, _, _, rfl⟩

theorem InvLock_start (p : Params F) : InvLock (initial_state p) := by
  constructor <;> simp [initial_state, ColPc.holds, EngPc.holds, EngPc.in_cs, EngPc.signalling,
    WriterPc.holds]

theorem InvLock_col_step {p : Params F} {ops : DoubleOps F} {s s' : State F} {c rnd : Nat}
    (h : InvLock s) (hs : column_thread p ops s c rnd = some s') : InvLock s' := by
  have hne : ∀ a b : Nat, ¬ a = b → ¬ b = a := fun _ _ hab hba => hab hba.symm
  refine ⟨?_, ?_, ?_, ?_, ?_, ?_, ?_, ?_, ?_, ?_⟩
  · intro c2 i2
    have a := h.col_owner c2 i2
    have b := h.col_owner c i2
    unfold column_thread at hs
    cases hpc : s.col_pc c <;> simp only [hpc] at hs <;> (try split_ifs at hs) <;>
      simp only [Option.some.injEq, reduceCtorEq] at hs <;> (try subst hs) <;>
      dsimp only <;> simp only [Function.update_apply] <;> (try split_ifs) <;> simp_all [ColPc.holds, EngPc.holds, EngPc.in_cs, EngPc.signalling, WriterPc.holds] <;>
      (first | omega | aesop)
  · intro e2 i2
    have a := h.eng_owner e2 i2
    have b := h.col_owner c i2
    unfold column_thread at hs
    cases hpc : s.col_pc c <;> simp only [hpc] at hs <;> (try split_ifs at hs) <;>
      simp only [Option.some.injEq, reduceCtorEq] at hs <;> (try subst hs) <;>
      dsimp only <;> (try simp only [Function.update_apply]) <;> (try split_ifs) <;> simp_all [ColPc.holds, EngPc.holds, EngPc.in_cs, EngPc.signalling, WriterPc.holds]
  · intro i2
    have a := h.main_owner i2
    have b := h.col_owner c i2
    unfold column_thread at hs
    cases hpc : s.col_pc c <;> simp only [hpc] at hs <;> (try split_ifs at hs) <;>
      simp only [Option.some.injEq, reduceCtorEq] at hs <;> (try subst hs) <;>
      dsimp only <;> (try simp only [Function.update_apply]) <;> (try split_ifs) <;> simp_all [ColPc.holds, EngPc.holds, EngPc.in_cs, EngPc.signalling, WriterPc.holds]
  · intro i2
    have a := h.writer_owner i2
    unfold column_thread at hs
    cases hpc : s.col_pc c <;> simp only [hpc] at hs <;> (try split_ifs at hs) <;>
      simp only [Option.some.injEq, reduceCtorEq] at hs <;> (try subst hs) <;>
      dsimp only <;> (try simp only [Function.update_apply]) <;> (try split_ifs) <;> simp_all [ColPc.holds, EngPc.holds, EngPc.in_cs, EngPc.signalling, WriterPc.holds]
  all_goals obtain ⟨pc, m, d, b, a, rfl⟩ := column_thread_frame hs
  · exact h.sem_eng
  · exact h.sem_other
  · exact h.sem_value
  · exact h.wm_writer
  · exact h.wm_eng
  · exact h.wm_other

set_option maxHeartbeats 4000000 in
theorem InvLock_eng_step {p : Params F} {ops : DoubleOps F} {s s' : State F} {e : Nat}
    (h : InvLock s) (hs : engine_thread p ops s e = some s') : InvLock s' := by
  have hne : ∀ a b : Nat, ¬ a = b → ¬ b = a := fun _ _ hab hba => hab hba.symm
  refine ⟨?_, ?_, ?_, ?_, ?_, ?_, ?_, ?_, ?_, ?_⟩
  · intro c2 i2
    have a := h.col_owner c2 i2
    have b := h.eng_owner e i2
    unfold engine_thread at hs
    cases hpc : s.eng_pc e <;> simp only [hpc] at hs <;> (try split_ifs at hs) <;>
      (try split at hs) <;>
      simp only [Option.some.injEq, reduceCtorEq] at hs <;> (try subst hs) <;>
      dsimp only <;> (try simp only [Function.update_apply]) <;> (try split_ifs) <;> simp_all [ColPc.holds, EngPc.holds, EngPc.in_cs, EngPc.signalling, WriterPc.holds]
  · intro e2 i2
    have a := h.eng_owner e2 i2
    have b := h.eng_owner e i2
    unfold engine_thread at hs
    cases hpc : s.eng_pc e <;> simp only [hpc] at hs <;> (try split_ifs at hs) <;>
      (try split at hs) <;>
      simp only [Option.some.injEq, reduceCtorEq] at hs <;> (try subst hs) <;>
      dsimp only <;> (try simp only [Function.update_apply]) <;> (try split_ifs) <;> simp_all [ColPc.holds, EngPc.holds, EngPc.in_cs, EngPc.signalling, WriterPc.holds] <;>
      (first | omega | aesop)
  · intro i2
    have a := h.main_owner i2
    have b := h.eng_owner e i2
    unfold engine_thread at hs
    cases hpc : s.eng_pc e <;> simp only [hpc] at hs <;> (try split_ifs at hs) <;>
      (try split at hs) <;>
      simp only [Option.some.injEq, reduceCtorEq] at hs <;> (try subst hs) <;>
      dsimp only <;> (try simp only [Function.update_apply]) <;> (try split_ifs) <;> simp_all [ColPc.holds, EngPc.holds, EngPc.in_cs, EngPc.signalling, WriterPc.holds]
  · intro i2
    have a := h.writer_owner i2
    unfold engine_thread at hs
    cases hpc : s.eng_pc e <;> simp only [hpc] at hs <;> (try split_ifs at hs) <;>
      (try split at hs) <;>
      simp only [Option.some.injEq, reduceCtorEq] at hs <;> (try subst hs) <;>
      dsimp only <;> (try simp only [Function.update_apply]) <;> (try split_ifs) <;> simp_all [ColPc.holds, EngPc.holds, EngPc.in_cs, EngPc.signalling, WriterPc.holds]
  · intro e2
    have a := h.sem_eng e2
    have b := h.sem_eng e
    have v := h.sem_value
    unfold engine_thread at hs
    cases hpc : s.eng_pc e <;> simp only [hpc] at hs <;> (try split_ifs at hs) <;>
      (try split at hs) <;>
      simp only [Option.some.injEq, reduceCtorEq] at hs <;> (try subst hs) <;>
      dsimp only <;> (try simp only [Function.update_apply]) <;> (try split_ifs) <;> simp_all [ColPc.holds, EngPc.holds, EngPc.in_cs, EngPc.signalling, WriterPc.holds] <;>
      (first | omega | aesop)
  · intro t
    have a := h.sem_other t
    unfold engine_thread at hs
    cases hpc : s.eng_pc e <;> simp only [hpc] at hs <;> (try split_ifs at hs) <;>
      (try split at hs) <;>
      simp only [Option.some.injEq, reduceCtorEq] at hs <;> (try subst hs) <;>
      dsimp only <;> simp_all [ColPc.holds, EngPc.holds, EngPc.in_cs, EngPc.signalling, WriterPc.holds] <;> (first | omega | aesop)
  · have a := h.sem_value
    have b := h.sem_eng e
    unfold engine_thread at hs
    cases hpc : s.eng_pc e <;> simp only [hpc] at hs <;> (try split_ifs at hs) <;>
      (try split at hs) <;>
      simp only [Option.some.injEq, reduceCtorEq] at hs <;> (try subst hs) <;>
      dsimp only <;> simp_all [ColPc.holds, EngPc.holds, EngPc.in_cs, EngPc.signalling, WriterPc.holds] <;> (first | omega | aesop)
  · have a := h.wm_writer
    have b := h.wm_eng e
    unfold engine_thread at hs
    cases hpc : s.eng_pc e <;> simp only [hpc] at hs <;> (try split_ifs at hs) <;>
      (try split at hs) <;>
      simp only [Option.some.injEq, reduceCtorEq] at hs <;> (try subst hs) <;>
      dsimp only <;> simp_all [ColPc.holds, EngPc.holds, EngPc.in_cs, EngPc.signalling, WriterPc.holds] <;> (first | omega | aesop)
  · intro e2
    have a := h.wm_eng e2
    have b := h.wm_eng e
    unfold engine_thread at hs
    cases hpc : s.eng_pc e <;> simp only [hpc] at hs <;> (try split_ifs at hs) <;>
      (try split at hs) <;>
      simp only [Option.some.injEq, reduceCtorEq] at hs <;> (try subst hs) <;>
      dsimp only <;> (try simp only [Function.update_apply]) <;> (try split_ifs) <;> simp_all [ColPc.holds, EngPc.holds, EngPc.in_cs, EngPc.signalling, WriterPc.holds] <;>
      (first | omega | aesop)
  · intro t
    have a := h.wm_other t
    unfold engine_thread at hs
    cases hpc : s.eng_pc e <;> simp only [hpc] at hs <;> (try split_ifs at hs) <;>
      (try split at hs) <;>
      simp only [Option.some.injEq, reduceCtorEq] at hs <;> (try subst hs) <;>
      dsimp only <;> simp_all [ColPc.holds, EngPc.holds, EngPc.in_cs, EngPc.signalling, WriterPc.holds] <;> (first | omega | aesop)

theorem InvLock_writer_step {p : Params F} {s s' : State F}
    (h : InvLock s) (hs : writer_thread_function p s = some s') : InvLock s' := by
  refine ⟨?_, ?_, ?_, ?_, ?_, ?_, ?_, ?_, ?_, ?_⟩
  case refine_8 =>
    have a := h.wm_writer
    unfold writer_thread_function at hs
    cases hpc : s.writer_pc <;> simp only [hpc] at hs <;> (try split_ifs at hs) <;>
      simp only [Option.some.injEq, reduceCtorEq] at hs <;> (try subst hs) <;>
      dsimp only <;> simp_all [ColPc.holds, EngPc.holds, EngPc.in_cs, EngPc.signalling, WriterPc.holds]
  case refine_9 =>
    intro e2
    have a := h.wm_eng e2
    have b := h.wm_writer
    unfold writer_thread_function at hs
    cases hpc : s.writer_pc <;> simp only [hpc] at hs <;> (try split_ifs at hs) <;>
      simp only [Option.some.injEq, reduceCtorEq] at hs <;> (try subst hs) <;>
      dsimp only <;> simp_all [ColPc.holds, EngPc.holds, EngPc.in_cs, EngPc.signalling, WriterPc.holds]
  case refine_10 =>
    intro t
    have a := h.wm_other t
    unfold writer_thread_function at hs
    cases hpc : s.writer_pc <;> simp only [hpc] at hs <;> (try split_ifs at hs) <;>
      simp only [Option.some.injEq, reduceCtorEq] at hs <;> (try subst hs) <;>
      dsimp only <;> simp_all [ColPc.holds, EngPc.holds, EngPc.in_cs, EngPc.signalling, WriterPc.holds] <;> (first | omega | aesop)
  all_goals obtain ⟨pc, wm, b, a, rfl⟩ := writer_thread_frame hs
  · exact h.col_owner
  · exact h.eng_owner
  · exact h.main_owner
  · exact h.writer_owner
  · exact h.sem_eng
  · exact h.sem_other
  · exact h.sem_value

theorem InvLock_main_step {p : Params F} {s s' : State F}
    (h : InvLock s) (hs : main p s = some s') : InvLock s' := by
  have hne : ∀ a b : Nat, ¬ a = b → ¬ b = a := fun _ _ hab hba => hab hba.symm
  refine ⟨?_, ?_, ?_, ?_, ?_, ?_, ?_, ?_, ?_, ?_⟩
  · intro c2 i2
    have a := h.col_owner c2 i2
    have b := h.main_owner i2
    unfold main at hs
    cases hpc : s.main_pc <;> simp only [hpc] at hs <;> (try split_ifs at hs) <;>
      (try split at hs) <;>
      simp only [Option.some.injEq, reduceCtorEq] at hs <;> (try subst hs) <;>
      dsimp only <;> (try simp only [Function.update_apply]) <;> (try split_ifs) <;> simp_all [ColPc.holds, EngPc.holds, EngPc.in_cs, EngPc.signalling, WriterPc.holds]
  · intro e2 i2
    have a := h.eng_owner e2 i2
    have b := h.main_owner i2
    unfold main at hs
    cases hpc : s.main_pc <;> simp only [hpc] at hs <;> (try split_ifs at hs) <;>
      (try split at hs) <;>
      simp only [Option.some.injEq, reduceCtorEq] at hs <;> (try subst hs) <;>
      dsimp only <;> (try simp only [Function.update_apply]) <;> (try split_ifs) <;> simp_all [ColPc.holds, EngPc.holds, EngPc.in_cs, EngPc.signalling, WriterPc.holds]
  · intro i2
    have a := h.main_owner i2
    unfold main at hs
    cases hpc : s.main_pc <;> simp only [hpc] at hs <;> (try split_ifs at hs) <;>
      (try split at hs) <;>
      simp only [Option.some.injEq, reduceCtorEq] at hs <;> (try subst hs) <;>
      dsimp only <;> (try simp only [Function.update_apply]) <;> (try split_ifs) <;> simp_all [ColPc.holds, EngPc.holds, EngPc.in_cs, EngPc.signalling, WriterPc.holds] <;>
      (first | omega | aesop)
  · intro i2
    have a := h.writer_owner i2
    unfold main at hs
    cases hpc : s.main_pc <;> simp only [hpc] at hs <;> (try split_ifs at hs) <;>
      (try split at hs) <;>
      simp only [Option.some.injEq, reduceCtorEq] at hs <;> (try subst hs) <;>
      dsimp only <;> (try simp only [Function.update_apply]) <;> (try split_ifs) <;> simp_all [ColPc.holds, EngPc.holds, EngPc.in_cs, EngPc.signalling, WriterPc.holds]
  all_goals obtain ⟨pc, m, f, rfl⟩ := main_thread_frame hs
  · exact h.sem_eng
  · exact h.sem_other
  · exact h.sem_value
  · exact h.wm_writer
  · exact h.wm_eng
  · exact h.wm_other

theorem InvLock_step {p : Params F} {ops : DoubleOps F} {s s' : State F} {a : Action}
    (h : InvLock s) (hs : step p ops s a = some s') : InvLock s' := by
  cases a with
  | col c rnd =>
    have hs2 : (if c < p.img_dim then column_thread p ops s c rnd else none) = some s' := hs
    split_ifs at hs2
    exact InvLock_col_step h hs2
  | eng e =>
    have hs2 : (if e < p.engines then engine_thread p ops s e else none) = some s' := hs
    split_ifs at hs2
    exact InvLock_eng_step h hs2
  | writer => exact InvLock_writer_step h hs
  | main => exact InvLock_main_step h hs

theorem InvLock_reachable {p : Params F} {ops : DoubleOps F} {s : State F}
    (h : Reachable p ops s) : InvLock s := by
  induction h with
  | start => exact InvLock_start p
  | next a _ hs ih => exact InvLock_step ih hs

theorem InvBox_start (p : Params F) : InvBox p (initial_state p) := by
  constructor <;> simp [initial_state, ColPc.target]

set_option maxHeartbeats 4000000 in
theorem InvBox_col_step {p : Params F} {ops : DoubleOps F} {s s' : State F} {c rnd : Nat}
    (hl : InvLock s) (h : InvBox p s) (hs : column_thread p ops s c rnd = some s') :
    InvBox p s' := by
  refine ⟨?_, ?_, ?_, ?_, ?_⟩
  · intro c2 row2 e2
    have a := h.dep_empty c2 row2 e2
    have l1 := hl.col_owner c2 e2
    have l2 := hl.col_owner c e2
    unfold column_thread at hs
    cases hpc : s.col_pc c <;> simp only [hpc] at hs <;> (try split_ifs at hs) <;>
      simp only [Option.some.injEq, reduceCtorEq] at hs <;> (try subst hs) <;>
      dsimp only <;> (try simp only [Function.update_apply]) <;> (try split_ifs) <;>
      intro hc2 <;> simp_all [ColPc.holds, ColPc.target, EngPc.holds, make_item]
  · intro e2
    have a := h.take_full e2
    obtain ⟨pc, m, d, b, ar, hfr⟩ := column_thread_frame hs
    have hpc2 : s'.eng_pc = s.eng_pc := by rw [hfr]
    rw [hpc2]
    unfold column_thread at hs
    cases hpc : s.col_pc c <;> simp only [hpc] at hs <;> (try split_ifs at hs) <;>
      simp only [Option.some.injEq, reduceCtorEq] at hs <;> (try subst hs) <;>
      dsimp only <;> (try simp only [Function.update_apply]) <;> (try split_ifs) <;>
      simp_all [ColPc.holds, ColPc.target, EngPc.holds, make_item]
  · intro e2
    have a := h.valid01 e2
    unfold column_thread at hs
    cases hpc : s.col_pc c <;> simp only [hpc] at hs <;> (try split_ifs at hs) <;>
      simp only [Option.some.injEq, reduceCtorEq] at hs <;> (try subst hs) <;>
      dsimp only <;> (try simp only [Function.update_apply]) <;> (try split_ifs) <;>
      simp_all [ColPc.holds, ColPc.target, EngPc.holds, make_item]
  · intro c2 e2
    have a := h.target_lt c2 e2
    have b := h.target_lt c e2
    unfold column_thread at hs
    cases hpc : s.col_pc c <;> simp only [hpc] at hs <;> (try split_ifs at hs) <;>
      simp only [Option.some.injEq, reduceCtorEq] at hs <;> (try subst hs) <;>
      dsimp only <;> (try simp only [Function.update_apply]) <;> (try split_ifs) <;>
      simp_all [ColPc.holds, ColPc.target, EngPc.holds, make_item] <;> (first | omega | (intro hx; subst hx; apply Nat.mod_lt; omega) | aesop)
  · intro e2
    have a := h.valid_lt e2
    have b := h.target_lt c e2
    unfold column_thread at hs
    cases hpc : s.col_pc c <;> simp only [hpc] at hs <;> (try split_ifs at hs) <;>
      simp only [Option.some.injEq, reduceCtorEq] at hs <;> (try subst hs) <;>
      dsimp only <;> (try simp only [Function.update_apply]) <;> (try split_ifs) <;>
      simp_all [ColPc.holds, ColPc.target, EngPc.holds, make_item]

set_option maxHeartbeats 4000000 in
theorem InvBox_eng_step {p : Params F} {ops : DoubleOps F} {s s' : State F} {e : Nat}
    (h : InvBox p s) (hs : engine_thread p ops s e = some s') :
    InvBox p s' := by
  refine ⟨?_, ?_, ?_, ?_, ?_⟩
  · intro c2 row2 e2
    have a := h.dep_empty c2 row2 e2
    obtain ⟨pc, m, d, sem, sh, wm, data, rgb, ppr, rc, rw, tot, file, st, hfr⟩ :=
      engine_thread_frame hs
    have hpc2 : s'.col_pc = s.col_pc := by rw [hfr]
    rw [hpc2]
    unfold engine_thread at hs
    cases hpc : s.eng_pc e <;> simp only [hpc] at hs <;> (try split_ifs at hs) <;>
      (try split at hs) <;>
      simp only [Option.some.injEq, reduceCtorEq] at hs <;> (try subst hs) <;>
      dsimp only <;> (try simp only [Function.update_apply]) <;> (try split_ifs) <;>
      simp_all [ColPc.holds, ColPc.target, EngPc.holds, make_item]
  · intro e2
    have a := h.take_full e2
    have b := h.valid01 e
    unfold engine_thread at hs
    cases hpc : s.eng_pc e <;> simp only [hpc] at hs <;> (try split_ifs at hs) <;>
      (try split at hs) <;>
      simp only [Option.some.injEq, reduceCtorEq] at hs <;> (try subst hs) <;>
      dsimp only <;> (try simp only [Function.update_apply]) <;> (try split_ifs) <;>
      simp_all [ColPc.holds, ColPc.target, EngPc.holds, make_item]
  · intro e2
    have a := h.valid01 e2
    unfold engine_thread at hs
    cases hpc : s.eng_pc e <;> simp only [hpc] at hs <;> (try split_ifs at hs) <;>
      (try split at hs) <;>
      simp only [Option.some.injEq, reduceCtorEq] at hs <;> (try subst hs) <;>
      dsimp only <;> (try simp only [Function.update_apply]) <;> (try split_ifs) <;>
      simp_all [ColPc.holds, ColPc.target, EngPc.holds, make_item]
  · intro c2 e2
    have a := h.target_lt c2 e2
    obtain ⟨pc, m, d, sem, sh, wm, data, rgb, ppr, rc, rw, tot, file, st, rfl⟩ :=
      engine_thread_frame hs
    exact a
  · intro e2
    have a := h.valid_lt e2
    unfold engine_thread at hs
    cases hpc : s.eng_pc e <;> simp only [hpc] at hs <;> (try split_ifs at hs) <;>
      (try split at hs) <;>
      simp only [Option.some.injEq, reduceCtorEq] at hs <;> (try subst hs) <;>
      dsimp only <;> (try simp only [Function.update_apply]) <;> (try split_ifs) <;>
      simp_all [ColPc.holds, ColPc.target, EngPc.holds, make_item]

theorem InvBox_writer_step {p : Params F} {s s' : State F}
    (h : InvBox p s) (hs : writer_thread_function p s = some s') : InvBox p s' := by
  obtain ⟨pc, wm, b, a, rfl⟩ := writer_thread_frame hs
  exact ⟨h.dep_empty, h.take_full, h.valid01, h.target_lt, h.valid_lt⟩

theorem InvBox_main_step {p : Params F} {s s' : State F}
    (h : InvBox p s) (hs : main p s = some s') : InvBox p s' := by
  obtain ⟨pc, m, f, rfl⟩ := main_thread_frame hs
  exact ⟨h.dep_empty, h.take_full, h.valid01, h.target_lt, h.valid_lt⟩

theorem InvBox_step {p : Params F} {ops : DoubleOps F} {s s' : State F} {a : Action}
    (hl : InvLock s) (h : InvBox p s) (hs : step p ops s a = some s') : InvBox p s' := by
  cases a with
  | col c rnd =>
    have hs2 : (if c < p.img_dim then column_thread p ops s c rnd else none) = some s' := hs
    split_ifs at hs2
    exact InvBox_col_step hl h hs2
  | eng e =>
    have hs2 : (if e < p.engines then engine_thread p ops s e else none) = some s' := hs
    split_ifs at hs2
    exact InvBox_eng_step h hs2
  | writer => exact InvBox_writer_step h hs
  | main => exact InvBox_main_step h hs

theorem InvBox_reachable {p : Params F} {ops : DoubleOps F} {s : State F}
    (h : Reachable p ops s) : InvBox p s := by
  induction h with
  | start => exact InvBox_start p
  | next a hr hs ih => exact InvBox_step (InvLock_reachable hr) ih hs

/-! ## Counting -/

theorem count_upto_le (f : Nat → Bool) (n : Nat) : count_upto f n ≤ n := by
  induction n with
  | zero => simp [count_upto]
  | succ n ih =>
    simp only [count_upto]
    split_ifs <;> omega

theorem count_upto_congr {f g : Nat → Bool} {n : Nat} (h : ∀ i, i < n → f i = g i) :
    count_upto f n = count_upto g n := by
  induction n with
  | zero => rfl
  | succ n ih =>
    simp only [count_upto]
    rw [ih (fun i hi => h i (by omega)), h n (by omega)]

theorem count_upto_lt_of_false {f : Nat → Bool} {n c : Nat} (hc : c < n) (hf : f c = false) :
    count_upto f n < n := by
  induction n with
  | zero => omega
  | succ n ih =>
    simp only [count_upto]
    by_cases hcn : c = n
    · subst hcn
      have := count_upto_le f c
      simp [hf]
      omega
    · have := ih (by omega)
      split_ifs <;> omega

theorem count_upto_all {f : Nat → Bool} {n : Nat} (h : count_upto f n = n) :
    ∀ i, i < n → f i = true := by
  intro i hi
  by_contra hne
  have hf : f i = false := by simpa using hne
  have := count_upto_lt_of_false hi hf
  omega

theorem count_upto_of_all {f : Nat → Bool} {n : Nat} (h : ∀ i, i < n → f i = true) :
    count_upto f n = n := by
  induction n with
  | zero => rfl
  | succ n ih =>
    simp only [count_upto]
    rw [ih (fun i hi => h i (by omega)), h n (by omega)]
    simp

theorem count_upto_zero {f : Nat → Bool} {n : Nat} (h : ∀ i, i < n → f i = false) :
    count_upto f n = 0 := by
  induction n with
  | zero => rfl
  | succ n ih =>
    simp only [count_upto]
    rw [ih (fun i hi => h i (by omega)), h n (by omega)]
    simp

theorem count_upto_set {f g : Nat → Bool} {n c : Nat} (hc : c < n) (hf : f c = false)
    (hg : g c = true) (hfg : ∀ i, i ≠ c → g i = f i) :
    count_upto g n = count_upto f n + 1 := by
  induction n with
  | zero => omega
  | succ n ih =>
    simp only [count_upto]
    by_cases hcn : c = n
    · subst hcn
      have : count_upto g c = count_upto f c :=
        count_upto_congr (fun i hi => hfg i (by omega))
      simp [hf, hg, this]
    · have := ih (by omega)
      rw [this, hfg n (fun h => hcn h.symm)]
      omega

theorem count_upto_others {f : Nat → Bool} {n c : Nat} (hc : c < n) (hf : f c = false)
    (h : count_upto f n + 1 = n) : ∀ i, i < n → i ≠ c → f i = true := by
  intro i hi hic
  have hg : count_upto (Function.update f c true) n = count_upto f n + 1 :=
    count_upto_set hc hf (by simp) (fun j hj => by simp [Function.update_apply, hj])
  have := count_upto_all (f := Function.update f c true) (by omega) i hi
  simpa [Function.update_apply, hic] using this

theorem sum_upto_congr {f g : Nat → Nat} {n : Nat} (h : ∀ i, i < n → f i = g i) :
    sum_upto f n = sum_upto g n := by
  induction n with
  | zero => rfl
  | succ n ih =>
    simp only [sum_upto]
    rw [ih (fun i hi => h i (by omega)), h n (by omega)]

theorem sum_upto_const (g : Nat) (n : Nat) : sum_upto (fun _ => g) n = n * g := by
  induction n with
  | zero => simp [sum_upto]
  | succ n ih =>
    simp only [sum_upto, ih]
    ring

/-! ## The barrier invariant -/

theorem Barrier.arrive_last {b : Barrier} (h : b.last = true) :
    b.arrive = { b with waiting := 0, generation := b.generation + 1 } := by
  simp [Barrier.arrive, h]

theorem Barrier.arrive_not_last {b : Barrier} (h : b.last = false) :
    b.arrive = { b with waiting := b.waiting + 1 } := by
  simp [Barrier.arrive, h]

theorem InvBar_start (p : Params F) : InvBar p (initial_state p) := by
  constructor <;>
    simp [initial_state, ColPc.row_ok, ColPc.arrivals, WriterPc.row_ok, WriterPc.arrivals,
      ColPc.blocked_at, WriterPc.blocked_at, WriterPc.observed]
  exact (count_upto_zero (fun _ _ => rfl)).symm

/-- The effect of a column step on the barrier: either the barrier is not
touched, or the thread arrives and blocks, or it arrives last. -/
theorem column_thread_barrier {p : Params F} {ops : DoubleOps F} {s s' : State F} {c rnd : Nat}
    (h : InvBar p s) (hs : column_thread p ops s c rnd = some s') :
    (∃ pc m d, s' = { s with
        col_pc := Function.update s.col_pc c pc
        engine_mutexes := m
        DataShare_struct_array := d } ∧
      pc.row_ok p.img_dim ∧ pc.arrivals p.img_dim = (s.col_pc c).arrivals p.img_dim ∧
      (∀ g, pc.blocked_at g = false) ∧
      (s.col_pc c).blocked_at s.row_barrier.generation = false) ∨
    (∃ row, s.col_pc c = .head row ∧ 0 < row ∧ row < p.img_dim ∧ s.row_barrier.last = false ∧
      s' = { s with
        row_barrier := { s.row_barrier with waiting := s.row_barrier.waiting + 1 }
        col_arrivals := Function.update s.col_arrivals c (s.col_arrivals c + 1)
        col_pc := Function.update s.col_pc c (.barrier row s.row_barrier.generation) }) ∨
    (∃ row, s.col_pc c = .head row ∧ 0 < row ∧ row < p.img_dim ∧ s.row_barrier.last = true ∧
      s' = { s with
        row_barrier := { s.row_barrier with
          waiting := 0, generation := s.row_barrier.generation + 1 }
        col_arrivals := Function.update s.col_arrivals c (s.col_arrivals c + 1)
        col_pc := Function.update s.col_pc c (.pick row) }) := by
  have hr := h.col_row c
  unfold column_thread at hs
  cases hpc : s.col_pc c with
  | head row =>
    simp only [hpc] at hs
    split_ifs at hs with h1 h2 h3
    · right; right
      simp only [Option.some.injEq] at hs
      subst hs
      exact ⟨row, rfl, h2, h1, h3, by rw [Barrier.arrive_last h3]⟩
    · right; left
      simp only [Option.some.injEq] at hs
      subst hs
      have h3' : s.row_barrier.last = false := by simpa using h3
      exact ⟨row, rfl, h2, h1, h3', by rw [Barrier.arrive_not_last h3']⟩
    · left
      simp only [Option.some.injEq] at hs
      subst hs
      refine ⟨_, _, _, rfl, ?_, ?_, ?_, ?_⟩ <;>
        simp [ColPc.row_ok, ColPc.arrivals, ColPc.blocked_at, hpc] <;> omega
    · left
      simp only [Option.some.injEq] at hs
      subst hs
      rw [hpc] at hr
      refine ⟨_, _, _, rfl, ?_, ?_, ?_, ?_⟩ <;>
        simp [ColPc.row_ok, ColPc.arrivals, ColPc.blocked_at, hpc] <;>
        simp [ColPc.row_ok] at hr <;> omega
  | barrier row g =>
    simp only [hpc] at hs
    split_ifs at hs with h1
    simp only [Option.some.injEq] at hs
    subst hs
    rw [hpc] at hr
    left
    refine ⟨_, _, _, rfl, ?_, ?_, ?_, ?_⟩ <;>
      simp [ColPc.row_ok, ColPc.arrivals, ColPc.blocked_at, hpc] <;>
      simp [ColPc.row_ok] at hr <;> omega
  | done => simp [hpc] at hs
  | pick row =>
    simp only [hpc] at hs
    split_ifs at hs with h1
    simp only [Option.some.injEq] at hs
    subst hs
    rw [hpc] at hr
    left
    refine ⟨_, _, _, rfl, ?_, ?_, ?_, ?_⟩ <;>
      simp [ColPc.row_ok, ColPc.arrivals, ColPc.blocked_at, hpc] <;>
      simp [ColPc.row_ok] at hr <;> omega
  | lock row e =>
    simp only [hpc] at hs
    split_ifs at hs with h1
    simp only [Option.some.injEq] at hs
    subst hs
    rw [hpc] at hr
    left
    refine ⟨_, _, _, rfl, ?_, ?_, ?_, ?_⟩ <;>
      simp [ColPc.row_ok, ColPc.arrivals, ColPc.blocked_at, hpc] <;>
      simp [ColPc.row_ok] at hr <;> omega
  | wait row e =>
    simp only [hpc] at hs
    split_ifs at hs with h1
    simp only [Option.some.injEq] at hs
    subst hs
    rw [hpc] at hr
    left
    refine ⟨_, _, _, rfl, ?_, ?_, ?_, ?_⟩ <;>
      simp [ColPc.row_ok, ColPc.arrivals, ColPc.blocked_at, hpc] <;>
      simp [ColPc.row_ok] at hr <;> omega
  | while_ row e =>
    simp only [hpc] at hs
    rw [hpc] at hr
    split_ifs at hs with h1 <;> simp only [Option.some.injEq] at hs <;> subst hs <;> left <;>
      refine ⟨_, _, _, rfl, ?_, ?_, ?_, ?_⟩ <;>
      simp [ColPc.row_ok, ColPc.arrivals, ColPc.blocked_at, hpc] <;>
      simp [ColPc.row_ok] at hr <;> omega
  | deposit row e =>
    simp only [hpc, Option.some.injEq] at hs
    subst hs
    rw [hpc] at hr
    left
    refine ⟨_, _, _, rfl, ?_, ?_, ?_, ?_⟩ <;>
      simp [ColPc.row_ok, ColPc.arrivals, ColPc.blocked_at, hpc] <;>
      simp [ColPc.row_ok] at hr <;> omega
  | unlock row e =>
    simp only [hpc, Option.some.injEq] at hs
    subst hs
    rw [hpc] at hr
    left
    refine ⟨_, _, _, rfl, ?_, ?_, ?_, ?_⟩ <;>
      simp [ColPc.row_ok, ColPc.arrivals, ColPc.blocked_at, hpc] <;>
      simp [ColPc.row_ok] at hr <;> omega

/-- When the next arrival is the last one and the arriving column is not
blocked, the writer and every other column are blocked in the current round. -/
theorem InvBar.all_blocked_col {p : Params F} {s : State F} {c : Nat} (h : InvBar p s)
    (hc : c < p.img_dim) (hlast : s.row_barrier.last = true)
    (hnb : (s.col_pc c).blocked_at s.row_barrier.generation = false) :
    s.writer_pc.blocked_at s.row_barrier.generation = true ∧
    ∀ i, i < p.img_dim → i ≠ c → (s.col_pc i).blocked_at s.row_barrier.generation = true := by
  have hw := h.waiting
  have hp := h.parties
  have hl : s.row_barrier.waiting + 1 = s.row_barrier.parties := by
    simpa [Barrier.last] using hlast
  have hlt := count_upto_lt_of_false (f := fun c => (s.col_pc c).blocked_at
    s.row_barrier.generation) hc hnb
  by_cases hwb : s.writer_pc.blocked_at s.row_barrier.generation = true
  · refine ⟨hwb, ?_⟩
    rw [if_pos hwb] at hw
    exact count_upto_others (f := fun c => (s.col_pc c).blocked_at
      s.row_barrier.generation) hc hnb (by omega)
  · rw [if_neg hwb] at hw
    omega

/-- When the next arrival is the last one and the writer is not blocked,
every column is blocked in the current round. -/
theorem InvBar.all_blocked_writer {p : Params F} {s : State F} (h : InvBar p s)
    (hlast : s.row_barrier.last = true)
    (hnb : s.writer_pc.blocked_at s.row_barrier.generation = false) :
    ∀ i, i < p.img_dim → (s.col_pc i).blocked_at s.row_barrier.generation = true := by
  have hw := h.waiting
  have hp := h.parties
  have hl : s.row_barrier.waiting + 1 = s.row_barrier.parties := by
    simpa [Barrier.last] using hlast
  rw [hnb] at hw
  exact count_upto_all (f := fun c => (s.col_pc c).blocked_at
    s.row_barrier.generation) (by simp at hw; omega)

theorem ColPc_blocked_at_succ {pc : ColPc} {g : Nat} (h : pc.blocked_at g = true) :
    pc.blocked_at (g + 1) = false := by
  cases pc <;> simp_all [ColPc.blocked_at]

theorem WriterPc_blocked_at_succ {pc : WriterPc} {g : Nat} (h : pc.blocked_at g = true) :
    pc.blocked_at (g + 1) = false := by
  cases pc <;> simp_all [WriterPc.blocked_at]

theorem InvBar_col_step {p : Params F} {ops : DoubleOps F} {s s' : State F} {c rnd : Nat}
    (h : InvBar p s) (hc : c < p.img_dim) (hs : column_thread p ops s c rnd = some s') :
    InvBar p s' := by
  rcases column_thread_barrier h hs with
    ⟨pc, m, d, rfl, h1, h2, h3, h4⟩ | ⟨row, hpc, h0, hN, hlast, rfl⟩ |
    ⟨row, hpc, h0, hN, hlast, rfl⟩
  · -- the barrier is not touched
    refine ⟨h.parties, ?_, ?_, h.wr_row, h.wr_arr, ?_, h.wr_round, ?_, h.written_lt,
      h.written01, h.waiting_le⟩
    · intro c2
      have := h.col_row c2
      dsimp only
      by_cases hcc : c2 = c
      · subst hcc; rwa [Function.update_same]
      · rwa [Function.update_noteq hcc]
    · intro c2 hc2
      have := h.col_arr c2 hc2
      dsimp only
      by_cases hcc : c2 = c
      · subst hcc; rw [Function.update_same]; omega
      · rwa [Function.update_noteq hcc]
    · intro c2 hc2
      have := h.col_round c2 hc2
      dsimp only
      by_cases hcc : c2 = c
      · subst hcc; rw [Function.update_same, h3]; rwa [h4] at this
      · rwa [Function.update_noteq hcc]
    · have := h.waiting
      dsimp only
      rw [this]
      congr 1
      apply count_upto_congr
      intro i _
      dsimp only
      by_cases hic : i = c
      · subst hic; rw [Function.update_same, h3, h4]
      · rw [Function.update_noteq hic]
  · -- the thread arrives and blocks
    have ha := h.col_arr c hc
    have hr := h.col_round c hc
    rw [hpc] at ha hr
    simp only [ColPc.arrivals, ColPc.blocked_at] at ha hr
    have hwl : s.row_barrier.waiting + 1 ≤ p.img_dim := by
      have h1 := h.waiting_le
      have h2 := h.parties
      have h3 : s.row_barrier.waiting + 1 ≠ s.row_barrier.parties := by
        simpa [Barrier.last] using hlast
      omega
    refine ⟨h.parties, ?_, ?_, h.wr_row, h.wr_arr, ?_, h.wr_round, ?_, h.written_lt,
      h.written01, hwl⟩
    · intro c2
      have := h.col_row c2
      dsimp only
      by_cases hcc : c2 = c
      · subst hcc; rw [Function.update_same]; exact ⟨h0, hN⟩
      · rwa [Function.update_noteq hcc]
    · intro c2 hc2
      have := h.col_arr c2 hc2
      dsimp only
      by_cases hcc : c2 = c
      · subst hcc; rw [Function.update_same, Function.update_same]
        simp only [ColPc.arrivals]; omega
      · rwa [Function.update_noteq hcc, Function.update_noteq hcc]
    · intro c2 hc2
      have := h.col_round c2 hc2
      dsimp only
      by_cases hcc : c2 = c
      · subst hcc; rw [Function.update_same, Function.update_same]
        simp [ColPc.blocked_at] at hr ⊢; omega
      · rwa [Function.update_noteq hcc, Function.update_noteq hcc]
    · have hw := h.waiting
      dsimp only
      rw [hw, count_upto_set (f := fun c => (s.col_pc c).blocked_at s.row_barrier.generation)
        (g := fun i => (Function.update s.col_pc c
          (ColPc.barrier row s.row_barrier.generation) i).blocked_at s.row_barrier.generation)
        hc (by simp [hpc, ColPc.blocked_at]) (by simp [ColPc.blocked_at])
        (fun i hi => by simp [Function.update_apply, hi])]
      omega
  · -- the thread arrives last
    have ha := h.col_arr c hc
    have hr := h.col_round c hc
    rw [hpc] at ha hr
    simp only [ColPc.arrivals, ColPc.blocked_at] at ha hr
    obtain ⟨hwb, hall⟩ := h.all_blocked_col hc hlast (by simp [hpc, ColPc.blocked_at])
    refine ⟨h.parties, ?_, ?_, h.wr_row, h.wr_arr, ?_, ?_, ?_, h.written_lt,
      h.written01, Nat.zero_le _⟩
    · intro c2
      have := h.col_row c2
      dsimp only
      by_cases hcc : c2 = c
      · subst hcc; rw [Function.update_same]; exact hN
      · rwa [Function.update_noteq hcc]
    · intro c2 hc2
      have := h.col_arr c2 hc2
      dsimp only
      by_cases hcc : c2 = c
      · subst hcc; rw [Function.update_same, Function.update_same]
        simp only [ColPc.arrivals]; omega
      · rwa [Function.update_noteq hcc, Function.update_noteq hcc]
    · intro c2 hc2
      have := h.col_round c2 hc2
      dsimp only
      by_cases hcc : c2 = c
      · subst hcc; rw [Function.update_same, Function.update_same]
        simp [ColPc.blocked_at] at hr ⊢; omega
      · rw [Function.update_noteq hcc, Function.update_noteq hcc]
        have hb := hall c2 hc2 hcc
        rw [ColPc_blocked_at_succ hb]
        rw [hb] at this
        simpa using this
    · have := h.wr_round
      dsimp only
      rw [WriterPc_blocked_at_succ hwb]
      rw [hwb] at this
      simpa using this
    · dsimp only
      rw [WriterPc_blocked_at_succ hwb, count_upto_zero]
      · rfl
      · intro i hi
        dsimp only
        by_cases hic : i = c
        · subst hic; rw [Function.update_same]; rfl
        · rw [Function.update_noteq hic]
          exact ColPc_blocked_at_succ (hall i hi hic)

/-- The effect of a writer step on the barrier. -/
theorem writer_thread_barrier {p : Params F} {s s' : State F}
    (h : InvBar p s) (hs : writer_thread_function p s = some s') :
    (∃ pc wm, s' = { s with writer_pc := pc, writer_mutex := wm } ∧
      pc.row_ok p.img_dim ∧ pc.arrivals p.img_dim = s.writer_pc.arrivals p.img_dim ∧
      (∀ g, pc.blocked_at g = false) ∧
      s.writer_pc.blocked_at s.row_barrier.generation = false ∧
      (∀ r, r < pc.observed p.img_dim → s.row_written r = 1)) ∨
    (∃ row, s.writer_pc = .if_ row ∧ row < p.img_dim - 1 ∧ s.row_barrier.last = false ∧
      s' = { s with
        row_barrier := { s.row_barrier with waiting := s.row_barrier.waiting + 1 }
        writer_arrivals := s.writer_arrivals + 1
        writer_pc := .barrier row s.row_barrier.generation }) ∨
    (∃ row, s.writer_pc = .if_ row ∧ row < p.img_dim - 1 ∧ s.row_barrier.last = true ∧
      s' = { s with
        row_barrier := { s.row_barrier with
          waiting := 0, generation := s.row_barrier.generation + 1 }
        writer_arrivals := s.writer_arrivals + 1
        writer_pc := .head (row + 1) }) := by
  have hr := h.wr_row
  have hw := h.written_lt
  unfold writer_thread_function at hs
  cases hpc : s.writer_pc with
  | head row =>
    simp only [hpc] at hs
    rw [hpc] at hr hw
    simp only [WriterPc.row_ok, WriterPc.observed] at hr hw
    split_ifs at hs with h1 <;> simp only [Option.some.injEq] at hs <;> subst hs <;> left <;>
      refine ⟨_, _, rfl, ?_, ?_, ?_, ?_, ?_⟩ <;>
      simp only [WriterPc.row_ok, WriterPc.arrivals, WriterPc.blocked_at, WriterPc.observed,
        implies_true] <;>
      first
      | omega
      | (intro r hr2; exact hw r (by omega))
  | lock row =>
    simp only [hpc] at hs
    rw [hpc] at hr hw
    simp only [WriterPc.row_ok, WriterPc.observed] at hr hw
    split_ifs at hs with h1
    simp only [Option.some.injEq] at hs
    subst hs
    left
    refine ⟨_, _, rfl, ?_, ?_, ?_, ?_, ?_⟩ <;>
      simp only [WriterPc.row_ok, WriterPc.arrivals, WriterPc.blocked_at, WriterPc.observed,
        implies_true] <;>
      first
      | omega
      | (intro r hr2; exact hw r (by omega))
  | while_ row =>
    simp only [hpc] at hs
    rw [hpc] at hr hw
    simp only [WriterPc.row_ok, WriterPc.observed] at hr hw
    have h01 := h.written01 row
    split_ifs at hs with h1 <;> simp only [Option.some.injEq] at hs <;> subst hs <;> left <;>
      refine ⟨_, _, rfl, ?_, ?_, ?_, ?_, ?_⟩ <;>
      simp only [WriterPc.row_ok, WriterPc.arrivals, WriterPc.blocked_at, WriterPc.observed,
        implies_true] <;>
      first
      | omega
      | (intro r hr2; exact hw r (by omega))
      | (intro r hr2
         by_cases hrr : r = row
         · subst hrr; omega
         · exact hw r (by omega))
  | wait row =>
    simp only [hpc] at hs
    rw [hpc] at hr hw
    simp only [WriterPc.row_ok, WriterPc.observed] at hr hw
    split_ifs at hs with h1
    simp only [Option.some.injEq] at hs
    subst hs
    left
    refine ⟨_, _, rfl, ?_, ?_, ?_, ?_, ?_⟩ <;>
      simp only [WriterPc.row_ok, WriterPc.arrivals, WriterPc.blocked_at, WriterPc.observed,
        implies_true] <;>
      first
      | omega
      | (intro r hr2; exact hw r (by omega))
  | unlock row =>
    simp only [hpc, Option.some.injEq] at hs
    rw [hpc] at hr hw
    simp only [WriterPc.row_ok, WriterPc.observed] at hr hw
    subst hs
    left
    refine ⟨_, _, rfl, ?_, ?_, ?_, ?_, ?_⟩ <;>
      simp only [WriterPc.row_ok, WriterPc.arrivals, WriterPc.blocked_at, WriterPc.observed,
        implies_true] <;>
      first
      | omega
      | (intro r hr2; exact hw r (by omega))
  | if_ row =>
    simp only [hpc] at hs
    rw [hpc] at hr hw
    simp only [WriterPc.row_ok, WriterPc.observed] at hr hw
    split_ifs at hs with h1 h2
    · right; right
      simp only [Option.some.injEq] at hs
      subst hs
      exact ⟨row, rfl, h1, h2, by rw [Barrier.arrive_last h2]⟩
    · right; left
      simp only [Option.some.injEq] at hs
      subst hs
      have h2' : s.row_barrier.last = false := by simpa using h2
      exact ⟨row, rfl, h1, h2', by rw [Barrier.arrive_not_last h2']⟩
    · left
      simp only [Option.some.injEq] at hs
      subst hs
      refine ⟨_, _, rfl, ?_, ?_, ?_, ?_, ?_⟩ <;>
        simp only [WriterPc.row_ok, WriterPc.arrivals, WriterPc.blocked_at, WriterPc.observed,
          implies_true] <;>
        first
        | omega
        | (intro r hr2; exact hw r (by omega))
  | barrier row g =>
    simp only [hpc] at hs
    rw [hpc] at hr hw
    simp only [WriterPc.row_ok, WriterPc.observed] at hr hw
    split_ifs at hs with h1
    simp only [Option.some.injEq] at hs
    subst hs
    left
    refine ⟨_, _, rfl, ?_, ?_, ?_, ?_, ?_⟩ <;>
      simp only [WriterPc.row_ok, WriterPc.arrivals, WriterPc.blocked_at, WriterPc.observed,
        implies_true, beq_eq_false_iff_ne, ne_eq] <;>
      first
      | omega
      | (intro r hr2; exact hw r (by omega))
      | (intro hg; exact h1 hg.symm)
  | done => simp [hpc] at hs

theorem InvBar_writer_step {p : Params F} {s s' : State F}
    (h : InvBar p s) (hs : writer_thread_function p s = some s') : InvBar p s' := by
  rcases writer_thread_barrier h hs with
    ⟨pc, wm, rfl, h1, h2, h3, h4, h5⟩ | ⟨row, hpc, hN, hlast, rfl⟩ |
    ⟨row, hpc, hN, hlast, rfl⟩
  · refine ⟨h.parties, h.col_row, h.col_arr, h1, ?_, h.col_round, ?_, ?_, h5, h.written01,
      h.waiting_le⟩
    · have := h.wr_arr
      dsimp only
      omega
    · have := h.wr_round
      dsimp only
      rw [h3]; rwa [h4] at this
    · have := h.waiting
      dsimp only
      rw [h3]; rwa [h4] at this
  · have ha := h.wr_arr
    have hr := h.wr_round
    have hw := h.written_lt
    rw [hpc] at ha hr hw
    simp only [WriterPc.arrivals, WriterPc.blocked_at, WriterPc.observed] at ha hr hw
    have hwl : s.row_barrier.waiting + 1 ≤ p.img_dim := by
      have h1 := h.waiting_le
      have h2 := h.parties
      have h3 : s.row_barrier.waiting + 1 ≠ s.row_barrier.parties := by
        simpa [Barrier.last] using hlast
      omega
    refine ⟨h.parties, h.col_row, h.col_arr, ?_, ?_, h.col_round, ?_, ?_, hw, h.written01,
      hwl⟩
    · simp only [WriterPc.row_ok]; omega
    · simp only [WriterPc.arrivals]; omega
    · simp [WriterPc.blocked_at] at hr ⊢; omega
    · have := h.waiting
      rw [hpc] at this
      simp [WriterPc.blocked_at] at this ⊢
      omega
  · have ha := h.wr_arr
    have hr := h.wr_round
    have hw := h.written_lt
    rw [hpc] at ha hr hw
    simp only [WriterPc.arrivals, WriterPc.blocked_at, WriterPc.observed] at ha hr hw
    have hall := h.all_blocked_writer hlast (by simp [hpc, WriterPc.blocked_at])
    refine ⟨h.parties, h.col_row, h.col_arr, ?_, ?_, ?_, ?_, ?_, hw, h.written01,
      Nat.zero_le _⟩
    · simp only [WriterPc.row_ok]; omega
    · simp only [WriterPc.arrivals]; omega
    · intro c hc
      have := h.col_round c hc
      dsimp only
      rw [ColPc_blocked_at_succ (hall c hc)]
      rw [hall c hc] at this
      simpa using this
    · simp [WriterPc.blocked_at] at hr ⊢; omega
    · dsimp only
      rw [count_upto_zero]
      · simp [WriterPc.blocked_at]
      · intro i hi
        exact ColPc_blocked_at_succ (hall i hi)

theorem engine_thread_row_written {p : Params F} {ops : DoubleOps F} {s s' : State F} {e : Nat}
    (hs : engine_thread p ops s e = some s') :
    ∀ r, s'.row_written r = s.row_written r ∨ s'.row_written r = 1 := by
  intro r
  unfold engine_thread at hs
  cases hpc : s.eng_pc e <;> simp only [hpc] at hs <;> (try split_ifs at hs) <;>
    (try split at hs) <;>
    simp only [Option.some.injEq, reduceCtorEq] at hs <;> subst hs <;>
    first
    | exact Or.inl rfl
    | (dsimp only
       rw [Function.update_apply]
       split_ifs
       · exact Or.inr rfl
       · exact Or.inl rfl)

theorem InvBar_eng_step {p : Params F} {ops : DoubleOps F} {s s' : State F} {e : Nat}
    (h : InvBar p s) (hs : engine_thread p ops s e = some s') : InvBar p s' := by
  have hrw := engine_thread_row_written hs
  obtain ⟨pc, m, d, sem, sh, wm, data, rgb, ppr, rc, rw, tot, file, st, rfl⟩ :=
    engine_thread_frame hs
  refine ⟨h.parties, h.col_row, h.col_arr, h.wr_row, h.wr_arr, h.col_round, h.wr_round,
    h.waiting, ?_, ?_, h.waiting_le⟩
  · intro r hr
    have := h.written_lt r hr
    rcases hrw r with h1 | h1
    · dsimp only at h1 ⊢; omega
    · exact h1
  · intro r
    have := h.written01 r
    rcases hrw r with h1 | h1
    · dsimp only at h1 ⊢; omega
    · exact Or.inr h1

theorem InvBar_main_step {p : Params F} {s s' : State F}
    (h : InvBar p s) (hs : main p s = some s') : InvBar p s' := by
  obtain ⟨pc, m, f, rfl⟩ := main_thread_frame hs
  exact ⟨h.parties, h.col_row, h.col_arr, h.wr_row, h.wr_arr, h.col_round, h.wr_round,
    h.waiting, h.written_lt, h.written01, h.waiting_le⟩

theorem InvBar_step {p : Params F} {ops : DoubleOps F} {s s' : State F} {a : Action}
    (h : InvBar p s) (hs : step p ops s a = some s') : InvBar p s' := by
  cases a with
  | col c rnd =>
    have hs2 : (if c < p.img_dim then column_thread p ops s c rnd else none) = some s' := hs
    split_ifs at hs2 with hc
    exact InvBar_col_step h hc hs2
  | eng e =>
    have hs2 : (if e < p.engines then engine_thread p ops s e else none) = some s' := hs
    split_ifs at hs2
    exact InvBar_eng_step h hs2
  | writer => exact InvBar_writer_step h hs
  | main => exact InvBar_main_step h hs

theorem InvBar_reachable {p : Params F} {ops : DoubleOps F} {s : State F}
    (h : Reachable p ops s) : InvBar p s := by
  induction h with
  | start => exact InvBar_start p
  | next a _ hs ih => exact InvBar_step ih hs

/-- Every column thread has deposited at most one row more than the number
of completed barrier rounds. -/
theorem InvBar.submitted_le {p : Params F} {s : State F} (h : InvBar p s) {c : Nat}
    (hc : c < p.img_dim) :
    (s.col_pc c).submitted p.img_dim ≤ s.row_barrier.generation + 1 := by
  have h1 := h.col_arr c hc
  have h2 := h.col_round c hc
  have h3 := h.col_row c
  cases hpc : s.col_pc c <;> rw [hpc] at h1 h2 h3 <;>
    simp only [ColPc.arrivals, ColPc.blocked_at, ColPc.row_ok, ColPc.submitted,
      Bool.false_eq_true, if_false] at h1 h2 h3 ⊢ <;>
    (try split_ifs at h2) <;> omega

/-- Every row below the number of completed barrier rounds is written. -/
theorem InvBar.written_of_lt_gen {p : Params F} {s : State F} (h : InvBar p s) {r : Nat}
    (hr : r < s.row_barrier.generation) : s.row_written r = 1 := by
  apply h.written_lt
  have h1 := h.wr_arr
  have h2 := h.wr_round
  have h3 := h.wr_row
  cases hpc : s.writer_pc <;> rw [hpc] at h1 h2 h3 <;>
    simp only [WriterPc.arrivals, WriterPc.blocked_at, WriterPc.row_ok, WriterPc.observed,
      Bool.false_eq_true, if_false] at h1 h2 h3 ⊢ <;>
    (try split_ifs at h2) <;> omega

/-! ## The effect of a step on the work items -/

/-- A column step either deposits a work item or changes nothing about the
work items. -/
theorem column_thread_items {p : Params F} {ops : DoubleOps F} {s s' : State F} {c rnd : Nat}
    (h : InvBar p s) (hs : column_thread p ops s c rnd = some s') :
    (∃ pc m b a, s' = { s with
        col_pc := Function.update s.col_pc c pc
        engine_mutexes := m
        row_barrier := b
        col_arrivals := a } ∧
      pc.submitted p.img_dim = (s.col_pc c).submitted p.img_dim) ∨
    (∃ row e, s.col_pc c = .deposit row e ∧
      s' = { s with
        DataShare_struct_array :=
          Function.update s.DataShare_struct_array e (make_item p ops c row)
        col_pc := Function.update s.col_pc c (.unlock row e) }) := by
  have hr := h.col_row c
  unfold column_thread at hs
  cases hpc : s.col_pc c with
  | deposit row e =>
    right
    simp only [hpc, Option.some.injEq] at hs
    exact ⟨row, e, rfl, hs.symm⟩
  | done => simp [hpc] at hs
  | head row =>
    left
    rw [hpc] at hr
    simp only [hpc] at hs
    split_ifs at hs <;> simp only [Option.some.injEq] at hs <;> subst hs <;>
      refine ⟨_, _, _, _, rfl, ?_⟩ <;> simp only [ColPc.submitted, ColPc.row_ok] at hr ⊢ <;>
      (try split_ifs) <;> (try simp only [ColPc.submitted]) <;> omega
  | barrier row g =>
    left
    simp only [hpc] at hs
    split_ifs at hs
    simp only [Option.some.injEq] at hs
    subst hs
    exact ⟨_, _, _, _, rfl, rfl⟩
  | pick row =>
    left
    simp only [hpc] at hs
    split_ifs at hs
    simp only [Option.some.injEq] at hs
    subst hs
    exact ⟨_, _, _, _, rfl, rfl⟩
  | lock row e =>
    left
    simp only [hpc] at hs
    split_ifs at hs
    simp only [Option.some.injEq] at hs
    subst hs
    exact ⟨_, _, _, _, rfl, rfl⟩
  | wait row e =>
    left
    simp only [hpc] at hs
    split_ifs at hs
    simp only [Option.some.injEq] at hs
    subst hs
    exact ⟨_, _, _, _, rfl, rfl⟩
  | while_ row e =>
    left
    simp only [hpc] at hs
    split_ifs at hs <;> simp only [Option.some.injEq] at hs <;> subst hs <;>
      exact ⟨_, _, _, _, rfl, rfl⟩
  | unlock row e =>
    left
    simp only [hpc, Option.some.injEq] at hs
    subst hs
    exact ⟨_, _, _, _, rfl, rfl⟩

/-- An engine step takes an item from the mailbox, stores a value, flushes a
row, or changes nothing about the work items. -/
theorem engine_thread_items {p : Params F} {ops : DoubleOps F} {s s' : State F} {e : Nat}
    (hs : engine_thread p ops s e = some s') :
    (∃ pc m sem sh wm, s' = { s with
        eng_pc := Function.update s.eng_pc e pc
        engine_mutexes := m
        row_write_sem := sem
        sem_holder := sh
        writer_mutex := wm } ∧
      pc.hand = (s.eng_pc e).hand ∧ pc.flushing = none ∧ (s.eng_pc e).flushing = none ∧
      (∀ it v, pc.computed = some (it, v) →
        calculate_mandelbrot ops it.x it.y = some v ∨ (s.eng_pc e).computed = some (it, v))) ∨
    (s.eng_pc e = .take ∧
      s' = { s with
        DataShare_struct_array := Function.update s.DataShare_struct_array e
          { s.DataShare_struct_array e with is_valid := 0 }
        eng_pc := Function.update s.eng_pc e (.unlock (s.DataShare_struct_array e)) }) ∨
    (∃ item value, s.eng_pc e = .write item value ∧
      s' = { s with
        current_row_data := Function.update s.current_row_data item.col value
        total_points_processed := s.total_points_processed + 1
        pixels_per_row :=
          Function.update s.pixels_per_row item.row (s.pixels_per_row item.row + 1)
        stored := Function.update s.stored item.row
          (Function.update (s.stored item.row) item.col true)
        eng_pc := Function.update s.eng_pc e
          (if s.pixels_per_row item.row + 1 = p.img_dim then .flush item else .post) }) ∨
    (∃ item, s.eng_pc e = .flush item ∧
      s' = { s with
        row_completed := Function.update s.row_completed item.row 1
        current_row_rgb := fill_rgb p.img_dim s.current_row_data s.current_row_rgb
        output_file := write_row_to_bmp s.output_file
          (fill_rgb p.img_dim s.current_row_data s.current_row_rgb) p.img_dim item.row
        row_written := Function.update s.row_written item.row 1
        eng_pc := Function.update s.eng_pc e .wlock }) := by
  unfold engine_thread at hs
  cases hpc : s.eng_pc e with
  | take =>
    right; left
    simp only [hpc, Option.some.injEq] at hs
    exact ⟨rfl, hs.symm⟩
  | write item value =>
    right; right; left
    simp only [hpc, Option.some.injEq] at hs
    exact ⟨item, value, rfl, hs.symm⟩
  | flush item =>
    right; right; right
    simp only [hpc, Option.some.injEq] at hs
    exact ⟨item, rfl, hs.symm⟩
  | done => simp [hpc] at hs
  | unlock item =>
    left
    simp only [hpc] at hs
    split at hs
    · rename_i value hv
      simp only [Option.some.injEq] at hs
      subst hs
      refine ⟨_, _, _, _, _, rfl, rfl, rfl, rfl, ?_⟩
      intro it v hc
      simp only [EngPc.computed, Option.some.injEq, Prod.mk.injEq] at hc
      obtain ⟨rfl, rfl⟩ := hc
      exact Or.inl hv
    · cases hs
  | semwait item value =>
    left
    simp only [hpc] at hs
    split_ifs at hs
    simp only [Option.some.injEq] at hs
    subst hs
    exact ⟨_, _, _, _, _, rfl, rfl, rfl, rfl, fun it v hc => Or.inr hc⟩
  | head =>
    left
    simp only [hpc] at hs
    split_ifs at hs <;> simp only [Option.some.injEq] at hs <;> subst hs <;>
      exact ⟨_, _, _, _, _, rfl, rfl, rfl, rfl, by simp [EngPc.computed]⟩
  | head2 =>
    left
    simp only [hpc] at hs
    split_ifs at hs <;> simp only [Option.some.injEq] at hs <;> subst hs <;>
      exact ⟨_, _, _, _, _, rfl, rfl, rfl, rfl, by simp [EngPc.computed]⟩
  | lock =>
    left
    simp only [hpc] at hs
    split_ifs at hs <;> simp only [Option.some.injEq] at hs <;> subst hs <;>
      exact ⟨_, _, _, _, _, rfl, rfl, rfl, rfl, by simp [EngPc.computed]⟩
  | while_ =>
    left
    simp only [hpc] at hs
    split_ifs at hs <;> simp only [Option.some.injEq] at hs <;> subst hs <;>
      exact ⟨_, _, _, _, _, rfl, rfl, rfl, rfl, by simp [EngPc.computed]⟩
  | wait =>
    left
    simp only [hpc] at hs
    split_ifs at hs <;> simp only [Option.some.injEq] at hs <;> subst hs <;>
      exact ⟨_, _, _, _, _, rfl, rfl, rfl, rfl, by simp [EngPc.computed]⟩
  | if_ =>
    left
    simp only [hpc] at hs
    split_ifs at hs <;> simp only [Option.some.injEq] at hs <;> subst hs <;>
      exact ⟨_, _, _, _, _, rfl, rfl, rfl, rfl, by simp [EngPc.computed]⟩
  | wlock =>
    left
    simp only [hpc] at hs
    split_ifs at hs <;> simp only [Option.some.injEq] at hs <;> subst hs <;>
      exact ⟨_, _, _, _, _, rfl, rfl, rfl, rfl, by simp [EngPc.computed]⟩
  | wsignal =>
    left
    simp only [hpc, Option.some.injEq] at hs
    subst hs
    exact ⟨_, _, _, _, _, rfl, rfl, rfl, rfl, by simp [EngPc.computed]⟩
  | post =>
    left
    simp only [hpc, Option.some.injEq] at hs
    subst hs
    exact ⟨_, _, _, _, _, rfl, rfl, rfl, rfl, by simp [EngPc.computed]⟩

/-! ## The work item invariant -/

theorem InvLock.cs_unique {s : State F} (h : InvLock s) {e1 e2 : Nat}
    (h1 : (s.eng_pc e1).in_cs = true) (h2 : (s.eng_pc e2).in_cs = true) : e1 = e2 := by
  have a := (h.sem_eng e1).1 h1
  have b := (h.sem_eng e2).1 h2
  rw [a] at b
  simpa using b

theorem flush_count_write (file : List SinkWrite) (rgb : List Nat) (w r r2 : Nat) :
    flush_count (write_row_to_bmp file rgb w r) r2 =
      flush_count file r2 + (if r = r2 then 1 else 0) := by
  simp only [flush_count, write_row_to_bmp, List.filter_append, List.length_append]
  congr 1
  by_cases h : r = r2 <;> simp [List.filter, h]

theorem InvItems.all_stored {p : Params F} {ops : DoubleOps F} {s : State F}
    (h : InvItems p ops s) {r c : Nat} (hw : s.row_written r ≠ 0) (hc : c < p.img_dim) :
    s.stored r c = true := by
  have h1 := (h.written_full r hw).2
  rw [h.ppr_count r] at h1
  exact count_upto_all h1 c hc

theorem InvItems.not_written {p : Params F} {ops : DoubleOps F} {s : State F}
    (h : InvItems p ops s) {r c : Nat} (hc : c < p.img_dim) (hst : s.stored r c = false) :
    s.row_written r = 0 := by
  by_contra hw
  have := h.all_stored hw hc
  rw [hst] at this
  cases this

theorem InvItems.ppr_lt {p : Params F} {ops : DoubleOps F} {s : State F}
    (h : InvItems p ops s) {r c : Nat} (hc : c < p.img_dim) (hst : s.stored r c = false) :
    s.pixels_per_row r < p.img_dim := by
  rw [h.ppr_count r]
  exact count_upto_lt_of_false hc hst

/-- A column thread that is about to deposit has no item in flight. -/
theorem InvItems.no_inflight {p : Params F} {ops : DoubleOps F} {s : State F}
    (hb : InvBar p s) (h : InvItems p ops s) {c row e : Nat} (hc : c < p.img_dim)
    (hpc : s.col_pc c = .deposit row e) {r : Nat}
    (hst : s.stored r c = false) (hr : r + 1 = (s.col_pc c).submitted p.img_dim) : False := by
  have h1 := hb.col_arr c hc
  have h2 := hb.col_round c hc
  rw [hpc] at h1 h2 hr
  simp only [ColPc.arrivals, ColPc.blocked_at, ColPc.submitted, Bool.false_eq_true,
    if_false] at h1 h2 hr
  have hw := hb.written_of_lt_gen (r := r) (by omega)
  have := h.all_stored (r := r) (by omega) hc
  rw [hst] at this
  cases this

theorem InvItems_start (p : Params F) (ops : DoubleOps F) :
    InvItems p ops (initial_state p) := by
  refine ⟨?_, ?_, ?_, ?_, ?_, ?_, ?_, ?_, ?_, ?_, ?_, ?_, ?_⟩ <;>
    simp [initial_state, EngPc.hand, EngPc.computed, EngPc.flushing, ColPc.submitted,
      flush_count]
  · exact (count_upto_zero (fun _ _ => rfl)).symm
  · intro r hr hN
    omega

theorem InvItems_col_step {p : Params F} {ops : DoubleOps F} {s s' : State F} {c rnd : Nat}
    (hx : InvBox p s) (hb : InvBar p s) (h : InvItems p ops s) (hc : c < p.img_dim)
    (hs : column_thread p ops s c rnd = some s') : InvItems p ops s' := by
  rcases column_thread_items hb hs with ⟨pc, m, b, a, rfl, hsub⟩ | ⟨row, e, hpc, rfl⟩
  · -- nothing about the items changes
    have hsub2 : ∀ x, ((Function.update s.col_pc c pc) x).submitted p.img_dim =
        (s.col_pc x).submitted p.img_dim := by
      intro x
      by_cases hxc : x = c
      · subst hxc; rw [Function.update_same, hsub]
      · rw [Function.update_noteq hxc]
    refine ⟨?_, ?_, h.value_ok, h.slot_slot, h.hand_hand, h.slot_hand, ?_, ?_, h.ppr_count,
      h.flush_ok, h.written_full, h.sink_count, h.full_written⟩
    · intro e2 hv
      have := h.slot_ok e2 hv
      dsimp only at hv ⊢
      rw [hsub2]
      exact this
    · intro e2 it hh
      have := h.hand_ok e2 it hh
      dsimp only
      rw [hsub2]
      exact this
    · intro r c2 hst
      have := h.stored_lt r c2 hst
      dsimp only
      rw [hsub2]
      exact this
    · intro c2 r hc2 hr
      dsimp only at hr
      rw [hsub2] at hr
      exact h.conserve c2 r hc2 hr
  · -- the thread deposits the item of `row`
    have hempty := hx.dep_empty c row e hpc
    have hew : e < p.engines := hx.target_lt c e (by rw [hpc]; rfl)
    have hrow : row < p.img_dim := by
      have := hb.col_row c
      rw [hpc] at this
      exact this
    have hkey1 : ∀ e1, (s.DataShare_struct_array e1).is_valid ≠ 0 →
        (s.DataShare_struct_array e1).col ≠ c := by
      intro e1 hv hcol
      obtain ⟨_, h2, h3⟩ := h.slot_ok e1 hv
      rw [hcol] at h2 h3
      exact h.no_inflight hb hc hpc h2 h3
    have hkey2 : ∀ e1 it, (s.eng_pc e1).hand = some it → it.col ≠ c := by
      intro e1 it hh hcol
      obtain ⟨_, h2, h3⟩ := h.hand_ok e1 it hh
      rw [hcol] at h2 h3
      exact h.no_inflight hb hc hpc h2 h3
    have hnst : s.stored row c = false := by
      by_contra hst
      have := (h.stored_lt row c (by simpa using hst)).2
      rw [hpc] at this
      simp only [ColPc.submitted] at this
      omega
    refine ⟨?_, ?_, h.value_ok, ?_, h.hand_hand, ?_, ?_, ?_, h.ppr_count,
      h.flush_ok, h.written_full, h.sink_count, h.full_written⟩
    · intro e2 hv
      dsimp only at hv ⊢
      by_cases he : e2 = e
      · subst he
        rw [Function.update_same] at hv ⊢
        simp only [make_item, Function.update_same, ColPc.submitted]
        exact ⟨⟨hrow, hc, rfl⟩, hnst, trivial⟩
      · rw [Function.update_noteq he] at hv ⊢
        have := h.slot_ok e2 hv
        rw [Function.update_noteq (hkey1 e2 hv)]
        exact this
    · intro e2 it hh
      have := h.hand_ok e2 it hh
      dsimp only
      rw [Function.update_noteq (hkey2 e2 it hh)]
      exact this
    · intro e1 e2 hv1 hv2 hcol
      dsimp only at hv1 hv2 hcol
      by_cases he1 : e1 = e <;> by_cases he2 : e2 = e
      · rw [he1, he2]
      · subst he1
        rw [Function.update_same] at hcol
        rw [Function.update_noteq he2] at hv2 hcol
        exact absurd hcol.symm (hkey1 e2 hv2)
      · subst he2
        rw [Function.update_same] at hcol
        rw [Function.update_noteq he1] at hv1 hcol
        exact absurd hcol (hkey1 e1 hv1)
      · rw [Function.update_noteq he1] at hv1 hcol
        rw [Function.update_noteq he2] at hv2 hcol
        exact h.slot_slot e1 e2 hv1 hv2 hcol
    · intro e1 e2 it hv hh
      dsimp only at hv hh ⊢
      by_cases he1 : e1 = e
      · subst he1
        rw [Function.update_same]
        exact fun hcol => hkey2 e2 it hh hcol.symm
      · rw [Function.update_noteq he1] at hv ⊢
        exact h.slot_hand e1 e2 it hv hh
    · intro r c2 hst
      have := h.stored_lt r c2 hst
      dsimp only
      by_cases hcc : c2 = c
      · subst hcc
        rw [Function.update_same]
        rw [hpc] at this
        simp only [ColPc.submitted] at this ⊢
        exact ⟨this.1, by omega⟩
      · rw [Function.update_noteq hcc]
        exact this
    · intro c2 r hc2 hr
      dsimp only at hr ⊢
      by_cases hcc : c2 = c
      · subst hcc
        rw [Function.update_same] at hr
        simp only [ColPc.submitted] at hr
        by_cases hrr : r = row
        · subst hrr
          right; left
          refine ⟨e, hew, ?_, ?_, ?_⟩ <;> rw [Function.update_same] <;> simp [make_item]
        · have := h.conserve c2 r hc2 (by rw [hpc]; simp only [ColPc.submitted]; omega)
          rcases this with h1 | ⟨e1, _, hv, _, hcol⟩ | ⟨e1, it, _, hh, _, hcol⟩
          · exact Or.inl h1
          · exact absurd hcol (hkey1 e1 hv)
          · exact absurd hcol (hkey2 e1 it hh)
      · rw [Function.update_noteq hcc] at hr
        rcases h.conserve c2 r hc2 hr with h1 | ⟨e1, hw1, hv, hrow1, hcol⟩ | h1
        · exact Or.inl h1
        · right; left
          have he1 : e1 ≠ e := by
            intro he
            subst he
            exact hv hempty
          exact ⟨e1, hw1, by rw [Function.update_noteq he1]; exact ⟨hv, hrow1, hcol⟩⟩
        · exact Or.inr (Or.inr h1)

theorem InvItems_eng_step {p : Params F} {ops : DoubleOps F} {s s' : State F} {e : Nat}
    (hl : InvLock s) (hx : InvBox p s) (h : InvItems p ops s) (he : e < p.engines)
    (hs : engine_thread p ops s e = some s') : InvItems p ops s' := by
  rcases engine_thread_items hs with
    ⟨pc, m, sem, sh, wm, rfl, hhand, hfl, hfl0, hcomp⟩ | ⟨hpc, rfl⟩ |
    ⟨item, value, hpc, rfl⟩ | ⟨item, hpc, rfl⟩
  · -- nothing about the items changes
    have hh2 : ∀ x, ((Function.update s.eng_pc e pc) x).hand = (s.eng_pc x).hand := by
      intro x
      by_cases hxe : x = e
      · subst hxe; rw [Function.update_same, hhand]
      · rw [Function.update_noteq hxe]
    have hf2 : ∀ x, ((Function.update s.eng_pc e pc) x).flushing = (s.eng_pc x).flushing := by
      intro x
      by_cases hxe : x = e
      · subst hxe; rw [Function.update_same, hfl, hfl0]
      · rw [Function.update_noteq hxe]
    refine ⟨h.slot_ok, ?_, ?_, h.slot_slot, ?_, ?_, h.stored_lt, ?_, h.ppr_count,
      ?_, h.written_full, h.sink_count, ?_⟩
    · intro e2 it hh
      dsimp only at hh ⊢
      rw [hh2] at hh
      exact h.hand_ok e2 it hh
    · intro e2 it v hc
      dsimp only at hc
      by_cases hxe : e2 = e
      · subst hxe
        rw [Function.update_same] at hc
        rcases hcomp it v hc with h1 | h1
        · exact h1
        · exact h.value_ok e2 it v h1
      · rw [Function.update_noteq hxe] at hc
        exact h.value_ok e2 it v hc
    · intro e1 e2 it1 it2 hh1 hh2'
      dsimp only at hh1 hh2'
      rw [hh2] at hh1 hh2'
      exact h.hand_hand e1 e2 it1 it2 hh1 hh2'
    · intro e1 e2 it hv hh
      dsimp only at hv hh ⊢
      rw [hh2] at hh
      exact h.slot_hand e1 e2 it hv hh
    · intro c r hc hr
      rcases h.conserve c r hc hr with h1 | h1 | ⟨e1, it, hw, hh, hrc⟩
      · exact Or.inl h1
      · exact Or.inr (Or.inl h1)
      · refine Or.inr (Or.inr ⟨e1, it, hw, ?_, hrc⟩)
        dsimp only
        rw [hh2]
        exact hh
    · intro e2 r hf
      dsimp only at hf
      rw [hf2] at hf
      exact h.flush_ok e2 r hf
    · intro r hr hp
      rcases h.full_written r hr hp with h1 | ⟨e1, hw, hf⟩
      · exact Or.inl h1
      · refine Or.inr ⟨e1, hw, ?_⟩
        dsimp only
        rw [hf2]
        exact hf
  · -- the engine takes the item of its mailbox
    have hvalid : (s.DataShare_struct_array e).is_valid ≠ 0 := by
      rw [hx.take_full e hpc]; decide
    have hhe : (s.eng_pc e).hand = none := by rw [hpc]; rfl
    have hfe : (s.eng_pc e).flushing = none := by rw [hpc]; rfl
    refine ⟨?_, ?_, ?_, ?_, ?_, ?_, h.stored_lt, ?_, h.ppr_count, ?_, h.written_full,
      h.sink_count, ?_⟩
    · intro e2 hv
      dsimp only at hv ⊢
      by_cases hxe : e2 = e
      · subst hxe
        rw [Function.update_same] at hv
        exact absurd rfl hv
      · rw [Function.update_noteq hxe] at hv ⊢
        exact h.slot_ok e2 hv
    · intro e2 it hh
      dsimp only at hh ⊢
      by_cases hxe : e2 = e
      · subst hxe
        rw [Function.update_same] at hh
        simp only [EngPc.hand, Option.some.injEq] at hh
        subst hh
        exact h.slot_ok e2 hvalid
      · rw [Function.update_noteq hxe] at hh
        exact h.hand_ok e2 it hh
    · intro e2 it v hc
      dsimp only at hc
      by_cases hxe : e2 = e
      · subst hxe
        rw [Function.update_same] at hc
        simp [EngPc.computed] at hc
      · rw [Function.update_noteq hxe] at hc
        exact h.value_ok e2 it v hc
    · intro e1 e2 hv1 hv2 hcol
      dsimp only at hv1 hv2 hcol
      by_cases h1 : e1 = e
      · subst h1
        rw [Function.update_same] at hv1
        exact absurd rfl hv1
      · by_cases h2 : e2 = e
        · subst h2
          rw [Function.update_same] at hv2
          exact absurd rfl hv2
        · rw [Function.update_noteq h1] at hv1 hcol
          rw [Function.update_noteq h2] at hv2 hcol
          exact h.slot_slot e1 e2 hv1 hv2 hcol
    · intro e1 e2 it1 it2 hh1 hh2 hcol
      dsimp only at hh1 hh2
      by_cases h1 : e1 = e <;> by_cases h2 : e2 = e
      · rw [h1, h2]
      · subst h1
        rw [Function.update_same] at hh1
        rw [Function.update_noteq h2] at hh2
        simp only [EngPc.hand, Option.some.injEq] at hh1
        subst hh1
        exact absurd hcol (h.slot_hand e1 e2 it2 hvalid hh2)
      · subst h2
        rw [Function.update_same] at hh2
        rw [Function.update_noteq h1] at hh1
        simp only [EngPc.hand, Option.some.injEq] at hh2
        subst hh2
        exact absurd hcol.symm (h.slot_hand e2 e1 it1 hvalid hh1)
      · rw [Function.update_noteq h1] at hh1
        rw [Function.update_noteq h2] at hh2
        exact h.hand_hand e1 e2 it1 it2 hh1 hh2 hcol
    · intro e1 e2 it hv hh
      dsimp only at hv hh ⊢
      by_cases h1 : e1 = e
      · subst h1
        rw [Function.update_same] at hv
        exact absurd rfl hv
      · rw [Function.update_noteq h1] at hv ⊢
        by_cases h2 : e2 = e
        · subst h2
          rw [Function.update_same] at hh
          simp only [EngPc.hand, Option.some.injEq] at hh
          subst hh
          exact fun hcol => h1 (h.slot_slot e1 e2 hv hvalid hcol)
        · rw [Function.update_noteq h2] at hh
          exact h.slot_hand e1 e2 it hv hh
    · intro c r hc hr
      rcases h.conserve c r hc hr with h1 | ⟨e1, hw, hv, hrow, hcol⟩ | ⟨e1, it, hw, hh, hrc⟩
      · exact Or.inl h1
      · by_cases h1 : e1 = e
        · subst h1
          refine Or.inr (Or.inr ⟨e1, _, hw, ?_, hrow, hcol⟩)
          dsimp only
          rw [Function.update_same]
          rfl
        · refine Or.inr (Or.inl ⟨e1, hw, ?_⟩)
          dsimp only
          rw [Function.update_noteq h1]
          exact ⟨hv, hrow, hcol⟩
      · have h1 : e1 ≠ e := by
          intro h1
          subst h1
          rw [hhe] at hh
          cases hh
        refine Or.inr (Or.inr ⟨e1, it, hw, ?_, hrc⟩)
        dsimp only
        rw [Function.update_noteq h1]
        exact hh
    · intro e2 r hf
      dsimp only at hf
      by_cases hxe : e2 = e
      · subst hxe
        rw [Function.update_same] at hf
        simp [EngPc.flushing] at hf
      · rw [Function.update_noteq hxe] at hf
        exact h.flush_ok e2 r hf
    · intro r hr hp
      rcases h.full_written r hr hp with h1 | ⟨e1, hw, hf⟩
      · exact Or.inl h1
      · have h1 : e1 ≠ e := by
          intro h1
          subst h1
          rw [hfe] at hf
          cases hf
        refine Or.inr ⟨e1, hw, ?_⟩
        dsimp only
        rw [Function.update_noteq h1]
        exact hf
  · -- the engine stores the value of its item
    have hhe : (s.eng_pc e).hand = some item := by rw [hpc]; rfl
    have hfe : (s.eng_pc e).flushing = none := by rw [hpc]; rfl
    have hcs : (s.eng_pc e).in_cs = true := by rw [hpc]; rfl
    obtain ⟨⟨hrow, hcol, hmk⟩, hnst, hsubm⟩ := h.hand_ok e item hhe
    have hppr := h.ppr_lt hcol hnst
    have hnw := h.not_written hcol hnst
    have hother : ∀ e2, e2 ≠ e → (s.eng_pc e2).flushing = none := by
      intro e2 hne
      cases hp2 : s.eng_pc e2 <;> try rfl
      exact absurd (hl.cs_unique (show (s.eng_pc e2).in_cs = true by rw [hp2]; rfl) hcs) hne
    have hst' : ∀ r c, Function.update s.stored item.row
        (Function.update (s.stored item.row) item.col true) r c =
        (s.stored r c || (decide (r = item.row) && decide (c = item.col))) := by
      intro r c
      by_cases hr : r = item.row
      · subst hr
        rw [Function.update_same]
        by_cases hcc : c = item.col
        · subst hcc; simp
        · rw [Function.update_noteq hcc]; simp [hcc]
      · rw [Function.update_noteq hr]; simp [hr]
    refine ⟨?_, ?_, ?_, h.slot_slot, ?_, ?_, ?_, ?_, ?_, ?_, ?_, h.sink_count, ?_⟩
    · intro e2 hv
      obtain ⟨h1, h2, h3⟩ := h.slot_ok e2 hv
      refine ⟨h1, ?_, h3⟩
      dsimp only
      rw [hst', h2]
      have := h.slot_hand e2 e item hv hhe
      simp [this]
    · intro e2 it hh
      dsimp only at hh
      by_cases hxe : e2 = e
      · subst hxe
        rw [Function.update_same] at hh
        split_ifs at hh <;> simp [EngPc.hand] at hh
      · rw [Function.update_noteq hxe] at hh
        obtain ⟨h1, h2, h3⟩ := h.hand_ok e2 it hh
        refine ⟨h1, ?_, h3⟩
        dsimp only
        rw [hst', h2]
        have : it.col ≠ item.col := fun hc => hxe (h.hand_hand e2 e it item hh hhe hc)
        simp [this]
    · intro e2 it v hc
      dsimp only at hc
      by_cases hxe : e2 = e
      · subst hxe
        rw [Function.update_same] at hc
        split_ifs at hc <;> simp [EngPc.computed] at hc
      · rw [Function.update_noteq hxe] at hc
        exact h.value_ok e2 it v hc
    · intro e1 e2 it1 it2 hh1 hh2 hcc
      dsimp only at hh1 hh2
      by_cases h1 : e1 = e
      · subst h1
        rw [Function.update_same] at hh1
        split_ifs at hh1 <;> simp [EngPc.hand] at hh1
      · by_cases h2 : e2 = e
        · subst h2
          rw [Function.update_same] at hh2
          split_ifs at hh2 <;> simp [EngPc.hand] at hh2
        · rw [Function.update_noteq h1] at hh1
          rw [Function.update_noteq h2] at hh2
          exact h.hand_hand e1 e2 it1 it2 hh1 hh2 hcc
    · intro e1 e2 it hv hh
      dsimp only at hv hh ⊢
      by_cases h2 : e2 = e
      · subst h2
        rw [Function.update_same] at hh
        split_ifs at hh <;> simp [EngPc.hand] at hh
      · rw [Function.update_noteq h2] at hh
        exact h.slot_hand e1 e2 it hv hh
    · intro r c hst
      dsimp only at hst ⊢
      rw [hst'] at hst
      simp only [Bool.or_eq_true, Bool.and_eq_true, decide_eq_true_eq] at hst
      rcases hst with h1 | ⟨rfl, rfl⟩
      · exact h.stored_lt r c h1
      · exact ⟨hcol, by omega⟩
    · intro c r hc hr
      dsimp only
      rcases h.conserve c r hc hr with h1 | h1 | ⟨e1, it, hw, hh, hr1, hc1⟩
      · left; rw [hst', h1]; rfl
      · exact Or.inr (Or.inl h1)
      · by_cases h1 : e1 = e
        · subst h1
          rw [hhe] at hh
          simp only [Option.some.injEq] at hh
          subst hh
          left
          rw [hst']
          simp [hr1, hc1]
        · refine Or.inr (Or.inr ⟨e1, it, hw, ?_, hr1, hc1⟩)
          rw [Function.update_noteq h1]
          exact hh
    · intro r
      dsimp only
      by_cases hr : r = item.row
      · subst hr
        rw [Function.update_same, Function.update_same, h.ppr_count]
        exact (count_upto_set hcol hnst (by rw [Function.update_same])
          (fun i hi => by rw [Function.update_noteq hi])).symm
      · rw [Function.update_noteq hr, Function.update_noteq hr]
        exact h.ppr_count r
    · intro e2 r hf
      dsimp only at hf ⊢
      by_cases hxe : e2 = e
      · subst hxe
        rw [Function.update_same] at hf
        split_ifs at hf with hfull
        · simp only [EngPc.flushing, Option.some.injEq] at hf
          subst hf
          rw [Function.update_same]
          exact ⟨hrow, hfull, hnw⟩
        · simp [EngPc.flushing] at hf
      · rw [Function.update_noteq hxe] at hf
        rw [hother e2 hxe] at hf
        cases hf
    · intro r hw
      dsimp only at hw ⊢
      obtain ⟨h1, h2⟩ := h.written_full r hw
      have hr : r ≠ item.row := by
        intro hr
        subst hr
        exact hw hnw
      rw [Function.update_noteq hr]
      exact ⟨h1, h2⟩
    · intro r hr hp
      dsimp only at hp ⊢
      by_cases hri : r = item.row
      · subst hri
        rw [Function.update_same] at hp
        refine Or.inr ⟨e, he, ?_⟩
        rw [Function.update_same, if_pos hp]
        rfl
      · rw [Function.update_noteq hri] at hp
        rcases h.full_written r hr hp with h1 | ⟨e1, hw, hf⟩
        · exact Or.inl h1
        · have h1 : e1 ≠ e := by
            intro h1
            subst h1
            rw [hfe] at hf
            cases hf
          refine Or.inr ⟨e1, hw, ?_⟩
          rw [Function.update_noteq h1]
          exact hf
  · -- the engine flushes the row of its item
    have hhe : (s.eng_pc e).hand = none := by rw [hpc]; rfl
    have hfe : (s.eng_pc e).flushing = some item.row := by rw [hpc]; rfl
    have hcs : (s.eng_pc e).in_cs = true := by rw [hpc]; rfl
    obtain ⟨hrow, hfull, hnw⟩ := h.flush_ok e item.row hfe
    have hother : ∀ e2, e2 ≠ e → (s.eng_pc e2).flushing = none := by
      intro e2 hne
      cases hp2 : s.eng_pc e2 <;> try rfl
      exact absurd (hl.cs_unique (show (s.eng_pc e2).in_cs = true by rw [hp2]; rfl) hcs) hne
    have hh2 : ∀ x, ((Function.update s.eng_pc e EngPc.wlock) x).hand = (s.eng_pc x).hand := by
      intro x
      by_cases hxe : x = e
      · subst hxe; rw [Function.update_same, hhe]; rfl
      · rw [Function.update_noteq hxe]
    refine ⟨h.slot_ok, ?_, ?_, h.slot_slot, ?_, ?_, h.stored_lt, ?_, h.ppr_count,
      ?_, ?_, ?_, ?_⟩
    · intro e2 it hh
      dsimp only at hh ⊢
      rw [hh2] at hh
      exact h.hand_ok e2 it hh
    · intro e2 it v hc
      dsimp only at hc
      by_cases hxe : e2 = e
      · subst hxe
        rw [Function.update_same] at hc
        simp [EngPc.computed] at hc
      · rw [Function.update_noteq hxe] at hc
        exact h.value_ok e2 it v hc
    · intro e1 e2 it1 it2 hh1 hh2'
      dsimp only at hh1 hh2'
      rw [hh2] at hh1 hh2'
      exact h.hand_hand e1 e2 it1 it2 hh1 hh2'
    · intro e1 e2 it hv hh
      dsimp only at hv hh ⊢
      rw [hh2] at hh
      exact h.slot_hand e1 e2 it hv hh
    · intro c r hc hr
      rcases h.conserve c r hc hr with h1 | h1 | ⟨e1, it, hw, hh, hrc⟩
      · exact Or.inl h1
      · exact Or.inr (Or.inl h1)
      · refine Or.inr (Or.inr ⟨e1, it, hw, ?_, hrc⟩)
        dsimp only
        rw [hh2]
        exact hh
    · intro e2 r hf
      dsimp only at hf
      by_cases hxe : e2 = e
      · subst hxe
        rw [Function.update_same] at hf
        simp [EngPc.flushing] at hf
      · rw [Function.update_noteq hxe, hother e2 hxe] at hf
        cases hf
    · intro r hw
      dsimp only at hw ⊢
      by_cases hr : r = item.row
      · subst hr
        exact ⟨hrow, hfull⟩
      · rw [Function.update_noteq hr] at hw
        exact h.written_full r hw
    · intro r
      dsimp only
      rw [flush_count_write, h.sink_count r]
      by_cases hr : r = item.row
      · subst hr
        rw [Function.update_same, hnw]
        simp
      · rw [Function.update_noteq hr, if_neg (fun h => hr h.symm)]
        rfl
    · intro r hr hp
      dsimp only at hp ⊢
      by_cases hri : r = item.row
      · subst hri
        left
        rw [Function.update_same]
      · rw [Function.update_noteq hri]
        rcases h.full_written r hr hp with h1 | ⟨e1, hw, hf⟩
        · exact Or.inl h1
        · by_cases h1 : e1 = e
          · subst h1
            rw [hfe] at hf
            simp only [Option.some.injEq] at hf
            exact absurd hf.symm hri
          · rw [hother e1 h1] at hf
            cases hf

theorem InvItems_writer_step {p : Params F} {ops : DoubleOps F} {s s' : State F}
    (h : InvItems p ops s) (hs : writer_thread_function p s = some s') : InvItems p ops s' := by
  obtain ⟨pc, wm, b, a, rfl⟩ := writer_thread_frame hs
  exact ⟨h.slot_ok, h.hand_ok, h.value_ok, h.slot_slot, h.hand_hand, h.slot_hand, h.stored_lt,
    h.conserve, h.ppr_count, h.flush_ok, h.written_full, h.sink_count, h.full_written⟩

theorem InvItems_main_step {p : Params F} {ops : DoubleOps F} {s s' : State F}
    (h : InvItems p ops s) (hs : main p s = some s') : InvItems p ops s' := by
  obtain ⟨pc, m, f, rfl⟩ := main_thread_frame hs
  exact ⟨h.slot_ok, h.hand_ok, h.value_ok, h.slot_slot, h.hand_hand, h.slot_hand, h.stored_lt,
    h.conserve, h.ppr_count, h.flush_ok, h.written_full, h.sink_count, h.full_written⟩

theorem InvItems_step {p : Params F} {ops : DoubleOps F} {s s' : State F} {a : Action}
    (hl : InvLock s) (hx : InvBox p s) (hb : InvBar p s) (h : InvItems p ops s)
    (hs : step p ops s a = some s') : InvItems p ops s' := by
  cases a with
  | col c rnd =>
    have hs2 : (if c < p.img_dim then column_thread p ops s c rnd else none) = some s' := hs
    split_ifs at hs2 with hc
    exact InvItems_col_step hx hb h hc hs2
  | eng e =>
    have hs2 : (if e < p.engines then engine_thread p ops s e else none) = some s' := hs
    split_ifs at hs2 with he
    exact InvItems_eng_step hl hx h he hs2
  | writer => exact InvItems_writer_step h hs
  | main => exact InvItems_main_step h hs

theorem InvItems_reachable {p : Params F} {ops : DoubleOps F} {s : State F}
    (h : Reachable p ops s) : InvItems p ops s := by
  induction h with
  | start => exact InvItems_start p ops
  | next a hr hs ih =>
    exact InvItems_step (InvLock_reachable hr) (InvBox_reachable hr) (InvBar_reachable hr) ih hs

/-! ## The shutdown invariant -/

theorem InvShutdown_start (p : Params F) : InvShutdown p (initial_state p) := by
  constructor <;>
    simp [initial_state, MainPc.flag, MainPc.cols_joined, MainPc.engs_joined]

theorem InvShutdown_col_step {p : Params F} {ops : DoubleOps F} {s s' : State F} {c rnd : Nat}
    (h : InvShutdown p s) (hc : c < p.img_dim)
    (hs : column_thread p ops s c rnd = some s') : InvShutdown p s' := by
  have hnd : s.col_pc c ≠ .done := by
    intro hd
    simp [column_thread, hd] at hs
  have hflag : s.all_work_submitted = 0 := by
    have h1 := h.flag
    have h2 := h.cols_joined c
    cases hm : s.main_pc <;> rw [hm] at h1 h2 <;>
      simp only [MainPc.flag, MainPc.cols_joined] at h1 h2 <;>
      first
      | exact h1
      | exact absurd (h2 hc hc) hnd
  obtain ⟨pc, m, d, b, a, hfr⟩ := column_thread_frame hs
  have e1 : s'.all_work_submitted = s.all_work_submitted := by rw [hfr]
  have e2 : s'.main_pc = s.main_pc := by rw [hfr]
  have e3 : s'.eng_pc = s.eng_pc := by rw [hfr]
  have e4 : s'.writer_pc = s.writer_pc := by rw [hfr]
  refine ⟨by rw [e1, e2]; exact h.flag, ?_, ?_, ?_, ?_, by rw [e2, e4]; exact h.writer_joined⟩
  · intro c2 hc2 hcN
    rw [e2] at hc2
    have := h.cols_joined c2 hc2 hcN
    have hne : c2 ≠ c := by
      intro hcc
      subst hcc
      exact hnd this
    rw [hfr]
    dsimp only
    rw [Function.update_noteq hne]
    exact this
  · intro e hh
    rw [e3] at hh
    have := h.head2_flag e hh
    omega
  · intro e hh
    rw [e3] at hh
    have := (h.done_ok e hh).1
    omega
  · intro e he heW
    rw [e2] at he
    rw [e3]
    exact h.engs_joined e he heW

theorem InvShutdown_eng_step {p : Params F} {ops : DoubleOps F} {s s' : State F} {e : Nat}
    (h : InvShutdown p s) (hs : engine_thread p ops s e = some s') : InvShutdown p s' := by
  have hnd : s.eng_pc e ≠ .done := by
    intro hd
    simp [engine_thread, hd] at hs
  have hflag01 : s.all_work_submitted = 0 ∨ s.all_work_submitted = 1 := by
    have := h.flag
    cases hm : s.main_pc <;> rw [hm] at this <;> simp only [MainPc.flag] at this <;> omega
  refine ⟨?_, ?_, ?_, ?_, ?_, ?_⟩
  · obtain ⟨pc, m, d, sem, sh, wm, data, rgb, ppr, rc, rw, tot, file, st, rfl⟩ :=
      engine_thread_frame hs
    exact h.flag
  · obtain ⟨pc, m, d, sem, sh, wm, data, rgb, ppr, rc, rw, tot, file, st, rfl⟩ :=
      engine_thread_frame hs
    exact h.cols_joined
  · intro e2 hh
    have a := h.head2_flag e2
    unfold engine_thread at hs
    cases hpc : s.eng_pc e <;> simp only [hpc] at hs <;> (try split_ifs at hs) <;>
      (try split at hs) <;>
      simp only [Option.some.injEq, reduceCtorEq] at hs <;> subst hs <;>
      dsimp only at hh ⊢ <;>
      (by_cases hxe : e2 = e
       · subst hxe
         rw [Function.update_same] at hh
         first
         | omega
         | cases hh
       · rw [Function.update_noteq hxe] at hh
         exact a hh)
  · intro e2 hh
    have a := h.done_ok e2
    unfold engine_thread at hs
    cases hpc : s.eng_pc e <;> simp only [hpc] at hs <;> (try split_ifs at hs) <;>
      (try split at hs) <;>
      simp only [Option.some.injEq, reduceCtorEq] at hs <;> subst hs <;>
      dsimp only at hh ⊢ <;>
      (by_cases hxe : e2 = e
       · subst hxe
         rw [Function.update_same] at hh
         first
         | exact ⟨by omega, by omega⟩
         | (have b := h.head2_flag e2 hpc; exact ⟨by omega, by omega⟩)
         | cases hh
       · rw [Function.update_noteq hxe] at hh
         first
         | exact a hh
         | (rw [Function.update_noteq hxe]; exact a hh))
  · intro e2 he2 heW
    have hfr := engine_thread_frame hs
    obtain ⟨pc, m, d, sem, sh, wm, data, rgb, ppr, rc, rw, tot, file, st, rfl⟩ := hfr
    have := h.engs_joined e2 he2 heW
    have hne : e2 ≠ e := by
      intro hee
      subst hee
      exact hnd this
    dsimp only
    rw [Function.update_noteq hne]
    exact this
  · obtain ⟨pc, m, d, sem, sh, wm, data, rgb, ppr, rc, rw, tot, file, st, rfl⟩ :=
      engine_thread_frame hs
    exact h.writer_joined

theorem InvShutdown_writer_step {p : Params F} {s s' : State F}
    (h : InvShutdown p s) (hs : writer_thread_function p s = some s') : InvShutdown p s' := by
  have hnd : s.writer_pc ≠ .done := by
    intro hd
    simp [writer_thread_function, hd] at hs
  have hm : s.main_pc ≠ .done := fun hm => hnd (h.writer_joined hm)
  obtain ⟨pc, wm, b, a, rfl⟩ := writer_thread_frame hs
  exact ⟨h.flag, h.cols_joined, h.head2_flag, h.done_ok, h.engs_joined, fun hh => absurd hh hm⟩

theorem InvShutdown_main_step {p : Params F} {s s' : State F}
    (h : InvShutdown p s) (hs : main p s = some s') : InvShutdown p s' := by
  have h1 := h.flag
  have h2 := h.cols_joined
  have h3 := h.head2_flag
  have h4 := h.done_ok
  have h5 := h.engs_joined
  unfold main at hs
  cases hpc : s.main_pc <;> rw [hpc] at h1 h2 h5 <;> simp only [hpc] at hs <;>
    (try split_ifs at hs) <;> (try split at hs) <;>
    simp only [Option.some.injEq, reduceCtorEq] at hs <;> subst hs <;>
    simp only [MainPc.flag, MainPc.cols_joined, MainPc.engs_joined] at h1 h2 h5 <;>
    refine ⟨?_, ?_, ?_, ?_, ?_, ?_⟩ <;>
    simp only [MainPc.flag, MainPc.cols_joined, MainPc.engs_joined, reduceCtorEq,
      false_implies, not_lt_zero', implies_true] <;>
    first
    | assumption
    | (intro c hc hcN
       rcases Nat.lt_succ_iff_lt_or_eq.mp hc with hlt | heq
       · exact h2 c hlt hcN
       · subst heq; assumption)
    | (intro c hc hcN; exact h2 c (by omega) hcN)
    | (intro e hh; have := h3 e hh; omega)
    | (intro e hh; have := h4 e hh; omega)
    | (intro e he heW
       rcases Nat.lt_succ_iff_lt_or_eq.mp he with hlt | heq
       · exact h5 e hlt heW
       · subst heq; assumption)
    | (intro e he heW; exact h5 e (by omega) heW)
    | (intro e he heW; omega)
    | (intro _; assumption)
    | skip

theorem InvShutdown_step {p : Params F} {ops : DoubleOps F} {s s' : State F} {a : Action}
    (h : InvShutdown p s) (hs : step p ops s a = some s') : InvShutdown p s' := by
  cases a with
  | col c rnd =>
    have hs2 : (if c < p.img_dim then column_thread p ops s c rnd else none) = some s' := hs
    split_ifs at hs2 with hc
    exact InvShutdown_col_step h hc hs2
  | eng e =>
    have hs2 : (if e < p.engines then engine_thread p ops s e else none) = some s' := hs
    split_ifs at hs2 with he
    exact InvShutdown_eng_step h hs2
  | writer => exact InvShutdown_writer_step h hs
  | main => exact InvShutdown_main_step h hs

theorem InvShutdown_reachable {p : Params F} {ops : DoubleOps F} {s : State F}
    (h : Reachable p ops s) : InvShutdown p s := by
  induction h with
  | start => exact InvShutdown_start p
  | next a _ hs ih => exact InvShutdown_step ih hs

/-! ## The pixel encoding -/

theorem rgb_store_length (data : Nat → Int) (rgb : List Nat) (col : Nat) :
    (rgb_store data rgb col).length = rgb.length := by
  simp [rgb_store]

theorem rgb_store_getElem? (data : Nat → Int) (rgb : List Nat) (col i : Nat) :
    (rgb_store data rgb col)[i]? =
      if col * 3 ≤ i ∧ i < col * 3 + 3 ∧ i < rgb.length then some (to_uint8 (data col))
      else rgb[i]? := by
  by_cases hi : i < rgb.length
  · simp only [rgb_store, List.getElem?_set, List.length_set]
    split_ifs <;> first | rfl | omega | (exfalso; omega)
  · have h1 : (rgb_store data rgb col)[i]? = none := by
      rw [List.getElem?_eq_none_iff, rgb_store_length]
      omega
    have h2 : rgb[i]? = none := by
      rw [List.getElem?_eq_none_iff]
      omega
    rw [h1, h2, if_neg (by omega)]

theorem fill_rgb_length (n : Nat) (data : Nat → Int) (rgb : List Nat) :
    (fill_rgb n data rgb).length = rgb.length := by
  induction n with
  | zero => simp [fill_rgb]
  | succ n ih =>
    simp only [fill_rgb, List.range_succ, List.foldl_append, List.foldl_cons, List.foldl_nil]
      at ih ⊢
    rw [rgb_store_length, ih]

theorem fill_rgb_getElem? (n : Nat) (data : Nat → Int) (rgb : List Nat) (i : Nat) :
    (fill_rgb n data rgb)[i]? =
      if i < n * 3 ∧ i < rgb.length then some (to_uint8 (data (i / 3))) else rgb[i]? := by
  induction n with
  | zero => simp [fill_rgb]
  | succ n ih =>
    have hlen := fill_rgb_length n data rgb
    simp only [fill_rgb, List.range_succ, List.foldl_append, List.foldl_cons, List.foldl_nil]
      at ih hlen ⊢
    rw [rgb_store_getElem?, ih, hlen]
    by_cases h1 : n * 3 ≤ i ∧ i < n * 3 + 3 ∧ i < rgb.length
    · have : i / 3 = n := by omega
      rw [if_pos h1, if_pos (by omega), this]
    · rw [if_neg h1]
      by_cases h2 : i < n * 3 ∧ i < rgb.length
      · rw [if_pos h2, if_pos (by omega)]
      · rw [if_neg h2, if_neg (by omega)]

/-- The bytes handed to the sink by the flush step. -/
theorem flush_bytes (n : Nat) (data : Nat → Int) (rgb : List Nat) (hlen : rgb.length = n * 3) :
    (fill_rgb n data rgb).take (3 * n) =
      (List.range (n * 3)).map (fun i => to_uint8 (data (i / 3))) := by
  apply List.ext_getElem?
  intro i
  rw [List.getElem?_take, fill_rgb_getElem?, List.getElem?_map]
  by_cases hi : i < n * 3
  · rw [if_pos (by omega), if_pos ⟨hi, by omega⟩, List.getElem?_range hi]
    rfl
  · rw [if_neg (by omega)]
    have : (List.range (n * 3))[i]? = none := by
      rw [List.getElem?_eq_none_iff]
      simp
      omega
    rw [this]
    rfl

/-! ## The row data invariant -/

theorem InvData_start (p : Params F) (ops : DoubleOps F) :
    InvData p ops (initial_state p) := by
  constructor <;> simp [initial_state, EngPc.flushing]

theorem InvData_col_step {p : Params F} {ops : DoubleOps F} {s s' : State F} {c rnd : Nat}
    (h : InvData p ops s) (hs : column_thread p ops s c rnd = some s') : InvData p ops s' := by
  obtain ⟨pc, m, d, b, a, rfl⟩ := column_thread_frame hs
  exact ⟨h.data_ok, h.flush_data, h.rgb_len, h.sink_ok⟩

theorem InvData_writer_step {p : Params F} {ops : DoubleOps F} {s s' : State F}
    (h : InvData p ops s) (hs : writer_thread_function p s = some s') : InvData p ops s' := by
  obtain ⟨pc, wm, b, a, rfl⟩ := writer_thread_frame hs
  exact ⟨h.data_ok, h.flush_data, h.rgb_len, h.sink_ok⟩

theorem InvData_main_step {p : Params F} {ops : DoubleOps F} {s s' : State F}
    (h : InvData p ops s) (hs : main p s = some s') : InvData p ops s' := by
  obtain ⟨pc, m, f, rfl⟩ := main_thread_frame hs
  exact ⟨h.data_ok, h.flush_data, h.rgb_len, h.sink_ok⟩

theorem InvData_eng_step {p : Params F} {ops : DoubleOps F} {s s' : State F} {e : Nat}
    (hl : InvLock s) (hb : InvBar p s) (hi : InvItems p ops s) (hi' : InvItems p ops s')
    (h : InvData p ops s) (hs : engine_thread p ops s e = some s') : InvData p ops s' := by
  rcases engine_thread_items hs with
    ⟨pc, m, sem, sh, wm, rfl, hhand, hfl, hfl0, hcomp⟩ | ⟨hpc, rfl⟩ |
    ⟨item, value, hpc, rfl⟩ | ⟨item, hpc, rfl⟩
  · refine ⟨h.data_ok, ?_, h.rgb_len, h.sink_ok⟩
    intro e2 r hf
    dsimp only at hf
    by_cases hxe : e2 = e
    · subst hxe
      rw [Function.update_same, hfl] at hf
      cases hf
    · rw [Function.update_noteq hxe] at hf
      exact h.flush_data e2 r hf
  · refine ⟨h.data_ok, ?_, h.rgb_len, h.sink_ok⟩
    intro e2 r hf
    dsimp only at hf
    by_cases hxe : e2 = e
    · subst hxe
      rw [Function.update_same] at hf
      cases hf
    · rw [Function.update_noteq hxe] at hf
      exact h.flush_data e2 r hf
  · -- the engine stores the value of its item
    have hhe : (s.eng_pc e).hand = some item := by rw [hpc]; rfl
    have hce : (s.eng_pc e).computed = some (item, value) := by rw [hpc]; rfl
    have hcs : (s.eng_pc e).in_cs = true := by rw [hpc]; rfl
    obtain ⟨⟨hrow, hcol, hmk⟩, hnst, hsubm⟩ := hi.hand_ok e item hhe
    have hval := hi.value_ok e item value hce
    have hnw := hi.not_written hcol hnst
    have hst' : ∀ r c, Function.update s.stored item.row
        (Function.update (s.stored item.row) item.col true) r c =
        (s.stored r c || (decide (r = item.row) && decide (c = item.col))) := by
      intro r c
      by_cases hr : r = item.row
      · subst hr
        rw [Function.update_same]
        by_cases hcc : c = item.col
        · subst hcc; simp
        · rw [Function.update_noteq hcc]; simp [hcc]
      · rw [Function.update_noteq hr]; simp [hr]
    have hdata : ∀ c r, c < p.img_dim →
        (s.stored r c || (decide (r = item.row) && decide (c = item.col))) = true →
        (s.stored (r + 1) c || (decide (r + 1 = item.row) && decide (c = item.col))) = false →
        pixel_value p ops c r = some (Function.update s.current_row_data item.col value c) := by
      intro c r hc h1 h2
      simp only [Bool.or_eq_true, Bool.and_eq_true, decide_eq_true_eq, Bool.or_eq_false_iff,
        Bool.and_eq_false_imp] at h1 h2
      by_cases hcc : c = item.col
      · subst hcc
        rw [Function.update_same]
        by_cases hr : r = item.row
        · subst hr
          unfold pixel_value
          rw [← hmk]
          exact hval
        · exfalso
          have h3 : s.stored r item.col = true := by
            rcases h1 with h1 | ⟨h1, _⟩
            · exact h1
            · exact absurd h1 hr
          have h4 := (hi.stored_lt r item.col h3).2
          have h5 : r + 1 ≠ item.row := by
            intro h5
            have := h2.2 h5
            simp at this
          rcases hi.conserve item.col (r + 1) hc (by omega) with
            h6 | ⟨e1, _, hv, hr1, hc1⟩ | ⟨e1, it, _, hh, hr1, hc1⟩
          · rw [h2.1] at h6
            cases h6
          · have := (hi.slot_ok e1 hv).2.2
            rw [hr1, hc1] at this
            omega
          · have := (hi.hand_ok e1 it hh).2.2
            rw [hr1, hc1] at this
            omega
      · rw [Function.update_noteq hcc]
        apply h.data_ok c r hc
        · rcases h1 with h1 | ⟨_, h1⟩
          · exact h1
          · exact absurd h1 hcc
        · exact h2.1
    refine ⟨?_, ?_, h.rgb_len, h.sink_ok⟩
    · intro c r hc h1 h2
      dsimp only at h1 h2 ⊢
      rw [hst'] at h1 h2
      exact hdata c r hc h1 h2
    · intro e2 r hf c hc
      obtain ⟨hr, hfull, _⟩ := hi'.flush_ok e2 r hf
      have hall := count_upto_all (by rw [← hi'.ppr_count r]; exact hfull) c hc
      have he2 : e2 = e := by
        by_contra hne
        dsimp only at hf
        rw [Function.update_noteq hne] at hf
        have : (s.eng_pc e2).in_cs = true := by
          cases hp2 : s.eng_pc e2 <;> rw [hp2] at hf <;> first | rfl | cases hf
        exact hne (hl.cs_unique this hcs)
      subst he2
      dsimp only at hf hall ⊢
      rw [Function.update_same] at hf
      have hr2 : r = item.row := by
        split_ifs at hf
        · simp only [EngPc.flushing, Option.some.injEq] at hf
          exact hf.symm
        · cases hf
      subst hr2
      rw [hst'] at hall
      apply hdata c item.row hc hall
      simp only [Bool.or_eq_false_iff, Bool.and_eq_false_imp, decide_eq_true_eq]
      refine ⟨?_, fun h => absurd h (by omega)⟩
      by_contra hst
      have hst : s.stored (item.row + 1) c = true := by simpa using hst
      have h1 := (hi.stored_lt _ _ hst).2
      have h2 := hb.submitted_le hc
      have h3 := hb.written_of_lt_gen (r := item.row) (by omega)
      omega
  · -- the engine flushes the row of its item
    have hfe : (s.eng_pc e).flushing = some item.row := by rw [hpc]; rfl
    obtain ⟨hrow, hfull, hnw⟩ := hi.flush_ok e item.row hfe
    have hfd := h.flush_data e item.row hfe
    refine ⟨h.data_ok, ?_, ?_, ?_⟩
    · intro e2 r hf
      dsimp only at hf ⊢
      by_cases hxe : e2 = e
      · subst hxe
        rw [Function.update_same] at hf
        cases hf
      · rw [Function.update_noteq hxe] at hf
        exact h.flush_data e2 r hf
    · dsimp only
      rw [fill_rgb_length]
      exact h.rgb_len
    · intro w hw
      dsimp only at hw
      simp only [write_row_to_bmp, List.mem_append, List.mem_singleton] at hw
      rcases hw with hw | hw
      · exact h.sink_ok w hw
      · subst hw
        refine ⟨hrow, ?_⟩
        dsimp only
        rw [flush_bytes _ _ _ h.rgb_len, expected_row]
        apply List.map_congr_left
        intro i hi2
        have hi3 : i < p.img_dim * 3 := by simpa using hi2
        rw [hfd (i / 3) (by omega)]
        rfl

theorem InvData_step {p : Params F} {ops : DoubleOps F} {s s' : State F} {a : Action}
    (hl : InvLock s) (hb : InvBar p s) (hi : InvItems p ops s) (hi' : InvItems p ops s')
    (h : InvData p ops s) (hs : step p ops s a = some s') : InvData p ops s' := by
  cases a with
  | col c rnd =>
    have hs2 : (if c < p.img_dim then column_thread p ops s c rnd else none) = some s' := hs
    split_ifs at hs2 with hc
    exact InvData_col_step h hs2
  | eng e =>
    have hs2 : (if e < p.engines then engine_thread p ops s e else none) = some s' := hs
    split_ifs at hs2 with he
    exact InvData_eng_step hl hb hi hi' h hs2
  | writer => exact InvData_writer_step h hs
  | main => exact InvData_main_step h hs

theorem InvData_reachable {p : Params F} {ops : DoubleOps F} {s : State F}
    (h : Reachable p ops s) : InvData p ops s := by
  induction h with
  | start => exact InvData_start p ops
  | next a hr hs ih =>
    exact InvData_step (InvLock_reachable hr) (InvBar_reachable hr) (InvItems_reachable hr)
      (InvItems_reachable (Reachable.next a hr hs)) ih hs

/-! ## The count of processed points -/

theorem sum_upto_incr {f : Nat → Nat} {n c : Nat} (hc : c < n) :
    sum_upto (Function.update f c (f c + 1)) n = sum_upto f n + 1 := by
  induction n with
  | zero => omega
  | succ n ih =>
    simp only [sum_upto]
    by_cases hcn : c = n
    · subst hcn
      rw [Function.update_same, sum_upto_congr (g := f)
        (fun i hi => Function.update_noteq (by omega) _ _)]
      omega
    · rw [ih (by omega), Function.update_noteq (fun h => hcn h.symm)]
      omega

/-- The counter `total_points_processed` is the sum of the row counters. -/
theorem total_points_reachable {p : Params F} {ops : DoubleOps F} {s : State F}
    (h : Reachable p ops s) :
    s.total_points_processed = sum_upto s.pixels_per_row p.img_dim := by
  induction h with
  | start =>
    simp only [initial_state]
    exact (sum_upto_const 0 p.img_dim).symm ▸ (Nat.mul_zero _).symm
  | next a hr hs ih =>
    rename_i s1 s2
    cases a with
    | col c rnd =>
      have hs2 : (if c < p.img_dim then column_thread p ops s1 c rnd else none) = some s2 := hs
      split_ifs at hs2 with hc
      obtain ⟨pc, m, d, b, a, rfl⟩ := column_thread_frame hs2
      exact ih
    | eng e =>
      have hs2 : (if e < p.engines then engine_thread p ops s1 e else none) = some s2 := hs
      split_ifs at hs2 with he
      rcases engine_thread_items hs2 with
        ⟨pc, m, sem, sh, wm, rfl, _⟩ | ⟨hpc, rfl⟩ | ⟨item, value, hpc, rfl⟩ | ⟨item, hpc, rfl⟩
      · exact ih
      · exact ih
      · have hrow := ((InvItems_reachable hr).hand_ok e item (by rw [hpc]; rfl)).1.1
        dsimp only
        rw [sum_upto_incr hrow, ih]
      · exact ih
    | writer =>
      obtain ⟨pc, wm, b, a, rfl⟩ := writer_thread_frame hs
      exact ih
    | main =>
      obtain ⟨pc, m, f, rfl⟩ := main_thread_frame hs
      exact ih

/-! ## The loop of the evaluator -/

theorem mandel_loop_at (ops : DoubleOps F) (x y : F) :
    ∀ m k, k + m = 255 →
      mandel_loop ops x y (m + 1) (mandel_at ops x y k) =
        some (mandel_at ops x y (k + ((List.range' k m).takeWhile
          (fun n => within_radius ops (orbit ops x y n))).length)) := by
  intro m
  induction m with
  | zero =>
    intro k hk
    have hc : mandel_cond ops (mandel_at ops x y k) = false := by
      simp [mandel_cond, mandel_at, MAX_ITERATIONS]
      omega
    simp [mandel_loop, hc]
  | succ m ih =>
    intro k hk
    have hc : mandel_cond ops (mandel_at ops x y k) = within_radius ops (orbit ops x y k) := by
      have : k < 255 := by omega
      simp [mandel_cond, mandel_at, MAX_ITERATIONS, within_radius, this]
    have hb : mandel_body ops x y (mandel_at ops x y k) = mandel_at ops x y (k + 1) := rfl
    rw [mandel_loop, hc, hb]
    by_cases hw : within_radius ops (orbit ops x y k) = true
    · rw [if_pos hw, ih (k + 1) (by omega)]
      simp only [List.range'_succ, List.takeWhile_cons, hw, if_true, List.length_cons]
      congr 2
      omega
    · rw [if_neg hw]
      simp [List.range'_succ, List.takeWhile_cons, hw]

theorem run_reachable {p : Params F} {ops : DoubleOps F} (acts : List Action) :
    ∀ {s s' : State F}, Reachable p ops s → run p ops s acts = some s' → Reachable p ops s' := by
  induction acts with
  | nil =>
    intro s s' hr h
    simp only [run, Option.some.injEq] at h
    subst h
    exact hr
  | cons a rest ih =>
    intro s s' hr h
    simp only [run] at h
    split at h
    · rename_i s2 hs2
      exact ih (Reachable.next a hr hs2) h
    · cases h

theorem reachable_getD {p : Params F} {ops : DoubleOps F} (acts : List Action)
    (h : (run p ops (initial_state p) acts).isSome = true) :
    Reachable p ops ((run p ops (initial_state p) acts).getD (initial_state p)) := by
  cases hr : run p ops (initial_state p) acts with
  | none => rw [hr] at h; cases h
  | some s' => exact run_reachable acts Reachable.start hr

set_option maxRecDepth 100000 in
theorem demo_schedule_runs :
    (run demo_params int_ops (initial_state demo_params) demo_schedule).isSome = true := by
  decide

theorem run_take_isSome {p : Params F} {ops : DoubleOps F} (acts : List Action) :
    ∀ (s : State F) (k : Nat), (run p ops s acts).isSome = true →
      (run p ops s (acts.take k)).isSome = true := by
  induction acts with
  | nil => intro s k h; simpa using h
  | cons a rest ih =>
    intro s k h
    cases k with
    | zero => simp [run]
    | succ k =>
      simp only [List.take_succ_cons, run] at h ⊢
      split at h
      · rename_i s2 hs2
        exact ih s2 k h
      · cases h

theorem demo_state_reachable (k : Nat) : Reachable demo_params int_ops (demo_state k) :=
  reachable_getD _ (run_take_isSome _ _ k demo_schedule_runs)

set_option maxRecDepth 100000 in
theorem demo_schedule2_runs :
    (run demo_params2 int_ops (initial_state demo_params2) demo_schedule2).isSome = true := by
  decide

theorem demo_state2_reachable (k : Nat) : Reachable demo_params2 int_ops (demo_state2 k) :=
  reachable_getD _ (run_take_isSome _ _ k demo_schedule2_runs)

set_option maxRecDepth 100000 in
theorem demo_deposit_enabled :
    (step demo_params int_ops (demo_state 49) (.col 0 0)).isSome = true := by
  decide

/-! ## Claims -/

/-- C1: in every reachable state no row has been flushed twice and no row
index outside `0..N-1` has been flushed; and in every complete run (all
column threads have returned and all engine threads have left their loop)
every work item has been stored, `N * N` points have been processed and
every row `0..N-1` has been flushed exactly once. -/
theorem C1_each_row_flushed_exactly_once (p : Params F) (ops : DoubleOps F) (s : State F)
    (hr : Reachable p ops s) :
    (∀ r, flush_count s.output_file r ≤ 1) ∧
    (∀ r, p.img_dim ≤ r → flush_count s.output_file r = 0) ∧
    ((∀ c, c < p.img_dim → s.col_pc c = .done) →
      (∀ e, e < p.engines → s.eng_pc e = .done) →
      (∀ r c, r < p.img_dim → c < p.img_dim → s.stored r c = true) ∧
      s.total_points_processed = p.img_dim * p.img_dim ∧
      ∀ r, r < p.img_dim → flush_count s.output_file r = 1) := by
  have hi := InvItems_reachable hr
  have hb := InvBar_reachable hr
  have hsd := InvShutdown_reachable (p := p) hr
  refine ⟨?_, ?_, ?_⟩
  · intro r
    rw [hi.sink_count r]
    rcases hb.written01 r with h | h <;> omega
  · intro r hrN
    rw [hi.sink_count r]
    by_contra hw
    have := (hi.written_full r hw).1
    omega
  · intro hcols hengs
    have hst : ∀ r c, r < p.img_dim → c < p.img_dim → s.stored r c = true := by
      intro r c hrN hc
      have hsub : r < (s.col_pc c).submitted p.img_dim := by
        rw [hcols c hc]; exact hrN
      rcases hi.conserve c r hc hsub with h | ⟨e, he, hv, _⟩ | ⟨e, it, he, hh, _⟩
      · exact h
      · exact absurd (hsd.done_ok e (hengs e he)).2 hv
      · rw [hengs e he] at hh
        cases hh
    have hfull : ∀ r, r < p.img_dim → s.pixels_per_row r = p.img_dim := by
      intro r hrN
      rw [hi.ppr_count r]
      exact count_upto_of_all (fun c hc => hst r c hrN hc)
    refine ⟨hst, ?_, ?_⟩
    · rw [total_points_reachable hr, sum_upto_congr (g := fun _ => p.img_dim) hfull,
        sum_upto_const]
    intro r hrN
    rw [hi.sink_count r]
    have hfull := hfull r hrN
    rcases hi.full_written r hrN hfull with h | ⟨e, he, hf⟩
    · exact h
    · rw [hengs e he] at hf
      cases hf

set_option maxRecDepth 100000 in
/-- C1 at the complete 2 x 2 run: both rows are flushed exactly once. -/
theorem C1_witness :
    flush_count (demo_state 103).output_file 0 = 1 ∧
    flush_count (demo_state 103).output_file 1 = 1 :=
  have h := ((C1_each_row_flushed_exactly_once demo_params int_ops (demo_state 103)
    (demo_state_reachable 103)).2.2 (by decide) (by decide)).2.2
  ⟨h 0 (by decide), h 1 (by decide)⟩

/-- C2: whenever a step puts a work item into a mailbox (the slot is empty
before the step and full after it), every row `r1` below the row of the item
has been flushed: `row_written[r1] == 1`, the sink was called for `r1`, and
every column has submitted and every engine has stored its point of `r1`. -/
theorem C2_row_order (p : Params F) (ops : DoubleOps F) (s s' : State F) (a : Action)
    (i : Nat) (hr : Reachable p ops s) (hs : step p ops s a = some s')
    (h0 : (s.DataShare_struct_array i).is_valid = 0)
    (h1 : (s'.DataShare_struct_array i).is_valid ≠ 0) :
    ∀ r1, r1 < (s'.DataShare_struct_array i).row →
      s.row_written r1 = 1 ∧ flush_count s.output_file r1 = 1 ∧
      ∀ c, c < p.img_dim →
        r1 < (s.col_pc c).submitted p.img_dim ∧ s.stored r1 c = true := by
  have hi := InvItems_reachable hr
  have hb := InvBar_reachable hr
  intro r1 hr1
  have key : ∃ c row, c < p.img_dim ∧ s.col_pc c = .deposit row i ∧
      (s'.DataShare_struct_array i).row = row := by
    cases a with
    | col c rnd =>
      have hs2 : (if c < p.img_dim then column_thread p ops s c rnd else none) = some s' := hs
      split_ifs at hs2 with hc
      rcases column_thread_items hb hs2 with ⟨pc, m, b, a, rfl, _⟩ | ⟨row, e, hpc, rfl⟩
      · exact absurd h0 h1
      · dsimp only at h1 hr1 ⊢
        by_cases hie : i = e
        · subst hie
          rw [Function.update_same]
          exact ⟨c, row, hc, hpc, rfl⟩
        · rw [Function.update_noteq hie] at h1
          exact absurd h0 h1
    | eng e =>
      have hs2 : (if e < p.engines then engine_thread p ops s e else none) = some s' := hs
      split_ifs at hs2 with he
      rcases engine_thread_items hs2 with
        ⟨pc, m, sem, sh, wm, rfl, _⟩ | ⟨hpc, rfl⟩ | ⟨item, value, hpc, rfl⟩ | ⟨item, hpc, rfl⟩
      · exact absurd h0 h1
      · dsimp only at h1
        by_cases hie : i = e
        · subst hie
          rw [Function.update_same] at h1
          exact absurd rfl h1
        · rw [Function.update_noteq hie] at h1
          exact absurd h0 h1
      · exact absurd h0 h1
      · exact absurd h0 h1
    | writer =>
      obtain ⟨pc, wm, b, a, rfl⟩ := writer_thread_frame hs
      exact absurd h0 h1
    | main =>
      obtain ⟨pc, m, f, rfl⟩ := main_thread_frame hs
      exact absurd h0 h1
  obtain ⟨c, row, hc, hpc, hrow⟩ := key
  rw [hrow] at hr1
  have ha := hb.col_arr c hc
  have hro := hb.col_round c hc
  rw [hpc] at ha hro
  simp only [ColPc.arrivals, ColPc.blocked_at, Bool.false_eq_true, if_false] at ha hro
  have hw := hb.written_of_lt_gen (r := r1) (by omega)
  refine ⟨hw, by rw [hi.sink_count r1]; exact hw, ?_⟩
  intro c2 hc2
  have hst := hi.all_stored (r := r1) (by omega) hc2
  exact ⟨(hi.stored_lt r1 c2 hst).2, hst⟩

/-- C3: in every reachable state and for every row `r`, `pixels_per_row[r]`
is the number of columns whose row-`r` value has been stored into
`current_row_data`, it is at most `img_dim`, and the sink has been called at
most once for `r`. -/
theorem C3_filled_count (p : Params F) (ops : DoubleOps F) (s : State F)
    (hr : Reachable p ops s) (r : Nat) :
    s.pixels_per_row r = count_upto (s.stored r) p.img_dim ∧
    s.pixels_per_row r ≤ p.img_dim ∧
    flush_count s.output_file r ≤ 1 := by
  have hi := InvItems_reachable hr
  have hb := InvBar_reachable hr
  refine ⟨hi.ppr_count r, ?_, ?_⟩
  · rw [hi.ppr_count r]
    exact count_upto_le _ _
  · rw [hi.sink_count r]
    rcases hb.written01 r with h | h <;> omega

/-- C4: the bytes passed to the sink for a row are the intensities of the
points of that row, whatever the interleaving, the engine choices and the
number of engines: two runs whose image dimension and viewport agree pass the
same bytes for the same row index. -/
theorem C4_row_contents_deterministic (p1 p2 : Params F) (ops : DoubleOps F)
    (s1 s2 : State F) (hr1 : Reachable p1 ops s1) (hr2 : Reachable p2 ops s2)
    (hdim : p1.img_dim = p2.img_dim) (hx : p1.UL_X = p2.UL_X) (hy : p1.UL_Y = p2.UL_Y)
    (hm : p1.mandel_dim = p2.mandel_dim) :
    (∀ w, w ∈ s1.output_file → w.bytes = expected_row p1 ops w.row_index) ∧
    (∀ w1 w2, w1 ∈ s1.output_file → w2 ∈ s2.output_file → w1.row_index = w2.row_index →
      w1.bytes = w2.bytes) := by
  have hd1 := InvData_reachable hr1
  have hd2 := InvData_reachable hr2
  refine ⟨fun w hw => (hd1.sink_ok w hw).2, ?_⟩
  intro w1 w2 hw1 hw2 hrow
  rw [(hd1.sink_ok w1 hw1).2, (hd2.sink_ok w2 hw2).2, hrow]
  simp only [expected_row, pixel_value, make_item, hdim, hx, hy, hm]

/-- C5: every slot has `is_valid` 0 or 1 and a step changes a slot in one of
two ways only: a column thread that holds the mutex of the slot deposits its
item into the empty slot (`is_valid` 0 before, 1 after), or the engine of the
slot, holding the mutex, takes the item out of the full slot (`is_valid` 1
before, 0 after, the rest of the slot unchanged and the item now in the
engine's hands). -/
theorem C5_mailbox_single_slot (p : Params F) (ops : DoubleOps F) (s s' : State F)
    (a : Action) (i : Nat) (hr : Reachable p ops s) (hs : step p ops s a = some s') :
    ((s.DataShare_struct_array i).is_valid = 0 ∨ (s.DataShare_struct_array i).is_valid = 1) ∧
    (s'.DataShare_struct_array i = s.DataShare_struct_array i ∨
     (∃ c rnd row, a = .col c rnd ∧ s.col_pc c = .deposit row i ∧
        s.engine_mutexes i = some (.col c) ∧
        (s.DataShare_struct_array i).is_valid = 0 ∧
        s'.DataShare_struct_array i = make_item p ops c row ∧
        (s'.DataShare_struct_array i).is_valid = 1) ∨
     (a = .eng i ∧ s.eng_pc i = .take ∧
        s.engine_mutexes i = some (.eng i) ∧
        (s.DataShare_struct_array i).is_valid = 1 ∧
        s'.DataShare_struct_array i = { s.DataShare_struct_array i with is_valid := 0 } ∧
        s'.eng_pc i = .unlock (s.DataShare_struct_array i))) := by
  have hl := InvLock_reachable hr
  have hx := InvBox_reachable (p := p) hr
  have hb := InvBar_reachable hr
  refine ⟨hx.valid01 i, ?_⟩
  cases a with
  | col c rnd =>
    have hs2 : (if c < p.img_dim then column_thread p ops s c rnd else none) = some s' := hs
    split_ifs at hs2 with hc
    rcases column_thread_items hb hs2 with ⟨pc, m, b, a, rfl, _⟩ | ⟨row, e, hpc, rfl⟩
    · exact Or.inl rfl
    · by_cases hie : i = e
      · subst hie
        right; left
        refine ⟨c, rnd, row, rfl, hpc, ?_, hx.dep_empty c row i hpc, ?_, ?_⟩
        · exact (hl.col_owner c i).1 (by rw [hpc]; rfl)
        · dsimp only
          rw [Function.update_same]
        · dsimp only
          rw [Function.update_same]
          rfl
      · left
        dsimp only
        rw [Function.update_noteq hie]
  | eng e =>
    have hs2 : (if e < p.engines then engine_thread p ops s e else none) = some s' := hs
    split_ifs at hs2 with he
    rcases engine_thread_items hs2 with
      ⟨pc, m, sem, sh, wm, rfl, _⟩ | ⟨hpc, rfl⟩ | ⟨item, value, hpc, rfl⟩ | ⟨item, hpc, rfl⟩
    · exact Or.inl rfl
    · by_cases hie : i = e
      · subst hie
        right; right
        refine ⟨rfl, hpc, ?_, hx.take_full i hpc, ?_, ?_⟩
        · exact (hl.eng_owner i i).1 ⟨rfl, by rw [hpc]; rfl⟩
        · dsimp only
          rw [Function.update_same]
        · dsimp only
          rw [Function.update_same]
      · left
        dsimp only
        rw [Function.update_noteq hie]
    · exact Or.inl rfl
    · exact Or.inl rfl
  | writer =>
    obtain ⟨pc, wm, b, a, rfl⟩ := writer_thread_frame hs
    exact Or.inl rfl
  | main =>
    obtain ⟨pc, m, f, rfl⟩ := main_thread_frame hs
    exact Or.inl rfl

/-- C6: an engine thread that has left its loop has an empty mailbox and
`all_work_submitted == 1`; and every submitted work item that is not yet in
the row buffer is in the mailbox or in the hands of an engine thread that has
not left its loop. -/
theorem C6_engine_exit (p : Params F) (ops : DoubleOps F) (s : State F)
    (hr : Reachable p ops s) :
    (∀ e, s.eng_pc e = .done →
      (s.DataShare_struct_array e).is_valid = 0 ∧ s.all_work_submitted = 1) ∧
    (∀ c r, c < p.img_dim → r < (s.col_pc c).submitted p.img_dim →
      s.stored r c = true ∨
      ∃ e, e < p.engines ∧ s.eng_pc e ≠ .done ∧
        (((s.DataShare_struct_array e).is_valid ≠ 0 ∧
            (s.DataShare_struct_array e).row = r ∧ (s.DataShare_struct_array e).col = c) ∨
         ∃ it, (s.eng_pc e).hand = some it ∧ it.row = r ∧ it.col = c)) := by
  have hi := InvItems_reachable hr
  have hsd := InvShutdown_reachable (p := p) hr
  refine ⟨fun e hd => ⟨(hsd.done_ok e hd).2, (hsd.done_ok e hd).1⟩, ?_⟩
  intro c r hc hsub
  rcases hi.conserve c r hc hsub with h | ⟨e, he, hv, hrc⟩ | ⟨e, it, he, hh, hrc⟩
  · exact Or.inl h
  · right
    refine ⟨e, he, ?_, Or.inl ⟨hv, hrc⟩⟩
    intro hd
    exact hv (hsd.done_ok e hd).2
  · right
    refine ⟨e, he, ?_, Or.inr ⟨it, hh, hrc⟩⟩
    intro hd
    rw [hd] at hh
    cases hh

/-- C8: the flush step of `engine_thread`, on a row buffer with entries in
`[0, 255]` and a pixel buffer of `3 * img_dim` bytes, calls the sink once with
the row index of the item and `3 * img_dim` bytes of which the bytes `3c`,
`3c + 1` and `3c + 2` all equal `current_row_data[c]`. -/
theorem C8_pixel_encoding (p : Params F) (ops : DoubleOps F) (s : State F) (e : Nat)
    (item : EngineDataShare F) (hpc : s.eng_pc e = .flush item)
    (hlen : s.current_row_rgb.length = p.img_dim * 3)
    (hrange : ∀ c, c < p.img_dim → 0 ≤ s.current_row_data c ∧ s.current_row_data c ≤ 255) :
    ∃ s' w, engine_thread p ops s e = some s' ∧
      s'.output_file = s.output_file ++ [w] ∧
      w.row_index = item.row ∧
      w.bytes.length = 3 * p.img_dim ∧
      ∀ c, c < p.img_dim → ∀ k, k < 3 →
        (w.bytes[3 * c + k]?).map Int.ofNat = some (s.current_row_data c) := by
  refine ⟨{ s with
      row_completed := Function.update s.row_completed item.row 1
      current_row_rgb := fill_rgb p.img_dim s.current_row_data s.current_row_rgb
      output_file := write_row_to_bmp s.output_file
        (fill_rgb p.img_dim s.current_row_data s.current_row_rgb) p.img_dim item.row
      row_written := Function.update s.row_written item.row 1
      eng_pc := Function.update s.eng_pc e .wlock },
    ⟨item.row, (fill_rgb p.img_dim s.current_row_data s.current_row_rgb).take
      (3 * p.img_dim)⟩, ?_, rfl, rfl, ?_, ?_⟩
  · simp only [engine_thread, hpc]
  · rw [flush_bytes _ _ _ hlen]
    simp
    omega
  · intro c hc k hk
    dsimp only
    rw [flush_bytes _ _ _ hlen, List.getElem?_map, List.getElem?_range (by omega)]
    have hdiv : (3 * c + k) / 3 = c := by omega
    obtain ⟨h0, h255⟩ := hrange c hc
    simp only [Option.map_some', hdiv, to_uint8, Option.some.injEq]
    rw [Int.emod_eq_of_lt h0 (by omega)]
    exact Int.toNat_of_nonneg h0

/-! ## The evaluator -/

/-- C9: for every input the loop of `calculate_mandelbrot` ends by its own
condition after `escape_iterations` executions of the body, at most 255,
where `escape_iterations` is the number of steps `z -> z^2 + c` from `z = c`
made while `|z|^2 <= 4.0` and fewer than 255 steps were made; the function
returns `255 - escape_iterations`, an integer in `[0, 255]`. -/
theorem C9_evaluator (ops : DoubleOps F) (x y : F) :
    (∃ st, mandel_loop ops x y (MAX_ITERATIONS + 1) (mandel_entry ops x y) = some st ∧
      st.iterations = escape_iterations ops x y) ∧
    escape_iterations ops x y ≤ 255 ∧
    calculate_mandelbrot ops x y = some (255 - (escape_iterations ops x y : Int)) ∧
    (0 : Int) ≤ 255 - (escape_iterations ops x y : Int) ∧
    255 - (escape_iterations ops x y : Int) ≤ 255 := by
  have hloop := mandel_loop_at ops x y 255 0 (by omega)
  have hentry : mandel_entry ops x y = mandel_at ops x y 0 := rfl
  have hesc : ((List.range' 0 255).takeWhile
      (fun n => within_radius ops (orbit ops x y n))).length = escape_iterations ops x y := by
    rw [escape_iterations, List.range_eq_range']
  have hle : escape_iterations ops x y ≤ 255 := by
    rw [escape_iterations]
    have := (List.takeWhile_sublist (l := List.range 255)
      (fun n => within_radius ops (orbit ops x y n))).length_le
    simpa using this
  rw [Nat.zero_add, hesc] at hloop
  refine ⟨⟨_, by rw [hentry]; exact hloop, rfl⟩, hle, ?_, by omega, by omega⟩
  rw [calculate_mandelbrot, hentry]
  show Option.map _ (mandel_loop ops x y (255 + 1) (mandel_at ops x y 0)) = _
  rw [hloop]
  rfl

/-! ## Lock ordering -/

/-- C10: in every reachable state, a thread at `sem_wait(&row_write_sem)`
holds no mailbox mutex, and a thread at `pthread_barrier_wait(&row_barrier)`
or at `pthread_cond_wait(&row_barrier_c, ...)` does not hold the semaphore. -/
theorem C10_lock_ordering (p : Params F) (ops : DoubleOps F) (s : State F)
    (hr : Reachable p ops s) (t : Tid) :
    (blocks_on_sem s t → ∀ i, s.engine_mutexes i ≠ some t) ∧
    (blocks_on_barrier s t ∨ waits_completion s t → s.sem_holder ≠ some t) := by
  have hl := InvLock_reachable hr
  constructor
  · intro hb i hm
    cases t with
    | eng e =>
      obtain ⟨item, value, hpc⟩ := hb
      have := (hl.eng_owner e i).2 hm
      rw [hpc] at this
      simp [EngPc.holds] at this
    | col c => exact hb
    | writer => exact hb
    | main => exact hb
  · intro hb hm
    obtain ⟨e, he⟩ := hl.sem_other t hm
    subst he
    rcases hb with hb | hb <;> exact hb

/-! ## The claims at the concrete runs -/

set_option maxRecDepth 100000 in
/-- C2 at the step of the 2 x 2 run in which column 0 deposits its item of
row 1: row 0 is written and was passed to the sink once. -/
theorem C2_witness :
    (demo_state 49).row_written 0 = 1 ∧ flush_count (demo_state 49).output_file 0 = 1 :=
  have h := C2_row_order demo_params int_ops (demo_state 49)
    ((step demo_params int_ops (demo_state 49) (.col 0 0)).get demo_deposit_enabled)
    (.col 0 0) 0 (demo_state_reachable 49) (Option.some_get _).symm (by decide) (by decide)
    0 (by decide)
  ⟨h.1, h.2.1⟩

/-- C3 at the end of the 2 x 2 run, row 0. -/
theorem C3_witness :
    (demo_state 103).pixels_per_row 0 = count_upto ((demo_state 103).stored 0) 2 ∧
    (demo_state 103).pixels_per_row 0 ≤ 2 ∧
    flush_count (demo_state 103).output_file 0 ≤ 1 :=
  C3_filled_count demo_params int_ops (demo_state 103) (demo_state_reachable 103) 0

set_option maxRecDepth 100000 in
/-- C4 at the complete runs with one engine and with two engines: the bytes
passed for row 1 are the same, and the bytes passed for row 0 are the
intensities of its points. -/
theorem C4_witness :
    ((demo_state 103).output_file.getD 0 ⟨0, []⟩).bytes = expected_row demo_params int_ops 0 ∧
    ((demo_state 103).output_file.getD 1 ⟨0, []⟩).bytes =
      ((demo_state2 110).output_file.getD 1 ⟨0, []⟩).bytes :=
  have h := C4_row_contents_deterministic demo_params demo_params2 int_ops
    (demo_state 103) (demo_state2 110) (demo_state_reachable 103) (demo_state2_reachable 110)
    rfl rfl rfl rfl
  ⟨h.1 _ (by decide), h.2 _ _ (by decide) (by decide) (by decide)⟩

set_option maxRecDepth 100000 in
/-- C5 at the step of the 2 x 2 run in which column 0 deposits its item of
row 1 into the mailbox of engine 0: the slot is empty before the step and
holds the item after it. -/
theorem C5_witness :
    ((demo_state 49).DataShare_struct_array 0).is_valid = 0 ∧
    ((demo_state 50).DataShare_struct_array 0).is_valid = 1 ∧
    (((demo_state 49).DataShare_struct_array 0).is_valid = 0 ∨
      ((demo_state 49).DataShare_struct_array 0).is_valid = 1) :=
  ⟨by decide, by decide,
    (C5_mailbox_single_slot demo_params int_ops (demo_state 49)
      ((step demo_params int_ops (demo_state 49) (.col 0 0)).get demo_deposit_enabled)
      (.col 0 0) 0 (demo_state_reachable 49) (Option.some_get _).symm).1⟩

set_option maxRecDepth 100000 in
/-- C6 at the end of the 2 x 2 run: engine 0 has left its loop. -/
theorem C6_witness :
    ((demo_state 103).DataShare_struct_array 0).is_valid = 0 ∧
    (demo_state 103).all_work_submitted = 1 :=
  (C6_engine_exit demo_params int_ops (demo_state 103) (demo_state_reachable 103)).1 0
    (by decide)

set_option maxRecDepth 100000 in
/-- C8 at the flush of row 0 in the 2 x 2 run. -/
theorem C8_witness :
    ∃ s' w, engine_thread demo_params int_ops (demo_state 33) 0 = some s' ∧
      s'.output_file = (demo_state 33).output_file ++ [w] ∧
      w.row_index = 0 ∧
      w.bytes.length = 3 * 2 ∧
      ∀ c, c < 2 → ∀ k, k < 3 →
        (w.bytes[3 * c + k]?).map Int.ofNat = some ((demo_state 33).current_row_data c) :=
  C8_pixel_encoding demo_params int_ops (demo_state 33) 0 (make_item demo_params int_ops 1 0)
    (by decide) (by decide) (by decide)

set_option maxRecDepth 100000 in
/-- C10 in the state of the 2 x 2 run where engine 0 is at `sem_wait` and
column 0 is blocked in the barrier. -/
theorem C10_witness :
    (demo_state 22).engine_mutexes 0 ≠ some (.eng 0) ∧
    (demo_state 22).sem_holder ≠ some (.col 0) :=
  ⟨(C10_lock_ordering demo_params int_ops (demo_state 22) (demo_state_reachable 22)
      (.eng 0)).1 ⟨make_item demo_params int_ops 0 0, 255, by decide⟩ 0,
   (C10_lock_ordering demo_params int_ops (demo_state 22) (demo_state_reachable 22)
      (.col 0)).2 (Or.inl ⟨1, Or.inr ⟨0, by decide⟩⟩)⟩

end Mandelbrot
